import Mathlib

/-!
CoAP reliability layer: `message_channel.h` and `coap_channel.h`

A shallow embedding of the message-ID assigner (`CoAPChannel`), the pending
message entity (`CoAPMessage`), the wraparound-safe tick comparison
(`time_has_passed`) and the message store (`CoAPMessageStore`).

Conventions of the embedding:

* `uint8_t`, `uint16_t` (`message_id_t`) and `uint32_t` (`system_tick_t`)
  values are natural numbers; every operation that can leave the range is
  followed by an explicit `% 2 ^ w`.
* `Message::id` is a C `int`, embedded as `Int`.
* A byte buffer is a `List Nat`.
* Pointers to `CoAPMessage` are addresses (`Nat`) into a `Memory`;
  `Option Nat` is a possibly-null pointer, `none` being `nullptr`.
* Store operations dereference pointers and loop over the `next` links, so
  they return `Option`: `none` stands for a run that dereferences a dangling
  pointer or never leaves the loop.
-/

namespace particle.protocol

/-! ## Declarations of `protocol_defs.h` and `coap.h` used by the sources -/

/-- The `ProtocolError` values named in the two source files. `NO_ERROR` is the
value `0`, which the sources test with `!error`. -/
inductive ProtocolError where
  | NO_ERROR
  | IO_ERROR
  | INVALID_STATE
  | INSUFFICIENT_STORAGE
  | MISSING_MESSAGE_ID
  deriving DecidableEq, Repr

/-- The `CoAPType::Enum` values: the four wire types and `ERROR`. -/
inductive CoAPType where
  | CON
  | NON
  | ACK
  | RESET
  | ERROR
  deriving DecidableEq, Repr

/-! ## `message_channel.h`: class `Message` -/

/-- The class `Message`: a view over a byte buffer with a logical length and an
optional ID (`id < 0` means not defined). `buffer` holds the bytes the
pointer refers to. -/
structure Message where
  buffer : List Nat
  buffer_length : Nat
  message_length : Nat
  id : Int
  deriving DecidableEq, Repr

namespace Message

/-- The constructor `Message(buf, buflen, msglen)`: the ID starts undefined. -/
def create (buf : List Nat) (buflen msglen : Nat) : Message :=
  { buffer := buf, buffer_length := buflen, message_length := msglen, id := -1 }

/-- The accessor `capacity()`. -/
def capacity (m : Message) : Nat := m.buffer_length

/-- The accessor `buf()`. -/
def buf (m : Message) : List Nat := m.buffer

/-- The accessor `length()`. -/
def length (m : Message) : Nat := m.message_length

/-- The method `set_id(message_id_t id)`: the argument is a 16-bit value. -/
def set_id (m : Message) (id : Nat) : Message := { m with id := ((id % 65536 : Nat) : Int) }

/-- The method `has_id()`: `id >= 0`. -/
def has_id (m : Message) : Bool := decide (0 ≤ m.id)

/-- The method `get_id()`: the conversion `message_id_t(id)` keeps the low 16 bits. -/
def get_id (m : Message) : Nat := (m.id % 65536).toNat

/-- The method `get_type()`, over the external decoder `CoAP::type`. -/
def get_type (CoAP_type : List Nat → CoAPType) (m : Message) : CoAPType :=
  if m.length ≠ 0 then CoAP_type m.buf else CoAPType.ERROR

end Message

/-! ## `coap_channel.h`: class `CoAPChannel` -/

/-- The class template `CoAPChannel<T>`: the owned 16-bit counter `message_id`
on top of the state `base` of the wrapped transport `T`. -/
structure CoAPChannel (σ : Type) where
  message_id : Nat
  base : σ

namespace CoAPChannel

/-- The constructor `CoAPChannel(msg_seed)`. -/
def create {σ : Type} (msg_seed : Nat) (base : σ) : CoAPChannel σ :=
  { message_id := msg_seed % 65536, base := base }

/-- The method `next_message_id()`: `++message_id` on a 16-bit counter; returns
the channel with the advanced counter and the new value. -/
def next_message_id {σ : Type} (c : CoAPChannel σ) : CoAPChannel σ × Nat :=
  let v := (c.message_id + 1) % 65536
  ({ c with message_id := v }, v)

/-- The body of `send` before it delegates: choose the ID and write it into
bytes 2 and 3 of the buffer (`uint8_t` stores keep the low 8 bits). A buffer
shorter than four bytes is left as it is where the byte does not exist. -/
def stamp {σ : Type} (c : CoAPChannel σ) (msg : Message) : CoAPChannel σ × Message :=
  let r : CoAPChannel σ × Nat :=
    if msg.has_id then (c, msg.get_id) else c.next_message_id
  let id := r.2
  let buf := msg.buf
  let buf := buf.set 2 ((id >>> 8) % 256)
  let buf := buf.set 3 ((id &&& 0xFF) % 256)
  (r.1, { msg with buffer := buf })

/-- The method `send(Message& msg)`: stamp the ID, then `return T::send(msg)`.
`T_send` is the wrapped transport's `send`, acting on the message and on the
transport's state. -/
def send {σ : Type} (T_send : Message → σ → ProtocolError × Message × σ)
    (c : CoAPChannel σ) (msg : Message) : ProtocolError × Message × CoAPChannel σ :=
  let r := c.stamp msg
  let t := T_send r.2 r.1.base
  (t.1, t.2.1, { r.1 with base := t.2.2 })

end CoAPChannel

/-! ## `coap_channel.h`: class `CoAPMessage` -/

/-- The class `CoAPMessage`. `next` is the link to the next message in the
store's list; `data` holds the `data_len` meaningful bytes of the trailing
array. -/
structure CoAPMessage where
  next : Option Nat
  timeout : Nat
  id : Nat
  transmit_count : Nat
  data_len : Nat
  data : List Nat
  deriving DecidableEq, Repr

namespace CoAPMessage

def ACK_TIMEOUT : Nat := 2000
def ACK_RANDOM_FACTOR : Nat := 1500
def MAX_RETRANSMIT : Nat := 4
def NSTART : Nat := 1

/-- The constructor `CoAPMessage(message_id_t id_)` (the increment of the static
`message_count` is done by `Memory.construct`). -/
def init (id_ : Nat) : CoAPMessage :=
  { next := none, timeout := 0, id := id_ % 65536, transmit_count := 0, data_len := 0, data := [] }

def get_next (m : CoAPMessage) : Option Nat := m.next
def set_next (m : CoAPMessage) (next : Option Nat) : CoAPMessage := { m with next := next }
def «matches» (m : CoAPMessage) (id : Nat) : Bool := decide (m.id = id)
def get_id (m : CoAPMessage) : Nat := m.id
def removed (m : CoAPMessage) : CoAPMessage := { m with next := none }

/-- The static method `transmit_timeout(uint8_t transmit_count)`; `rand` is the
value returned by the call of `rand()`. The shift is done on the promoted
`int` and stored into the 32-bit `timeout`; `timeout * rand() % 256` parses as
`(timeout * rand()) % 256` in 32-bit unsigned arithmetic. (For shift counts
that C++ leaves undefined the embedding keeps the low 32 bits of the
mathematical shift.) -/
def transmit_timeout (transmit_count : Nat) (rand : Nat) : Nat :=
  let timeout := (ACK_TIMEOUT <<< transmit_count) % 2 ^ 32
  let timeout := (timeout + ((((timeout * rand) % 2 ^ 32) % 256) >>> 9)) % 2 ^ 32
  timeout

/-- The method `prepare_retransmit(system_tick_t now)`: returns the updated
message and the returned flag. `transmit_count` is a `uint8_t`. -/
def prepare_retransmit (m : CoAPMessage) (now : Nat) (rand : Nat) : CoAPMessage × Bool :=
  let m := { m with timeout := (now + transmit_timeout m.transmit_count rand) % 2 ^ 32 }
  let m := { m with transmit_count := (m.transmit_count + 1) % 256 }
  (m, decide (m.transmit_count ≤ MAX_RETRANSMIT))

/-- The method `set_data(data, data_len)`: rejects more than 1500 bytes,
otherwise copies `data_len` bytes and records the length. -/
def set_data (m : CoAPMessage) (data : List Nat) (data_len : Nat) : CoAPMessage × ProtocolError :=
  if data_len > 1500 then (m, ProtocolError.IO_ERROR)
  else ({ m with data := data.take data_len, data_len := data_len % 65536 }, ProtocolError.NO_ERROR)

def get_data (m : CoAPMessage) : List Nat := m.data
def get_data_length (m : CoAPMessage) : Nat := m.data_len

end CoAPMessage

/-- The function `time_has_passed(now, tick)` on 32-bit ticks. Both subtractions
are taken in the branch where they do not wrap. -/
def time_has_passed (now tick : Nat) : Bool :=
  if now ≥ tick then decide (now - tick ≤ 0x7FFFFFFF)
  else decide (tick - now ≥ 0x80000000)

/-! ## Memory holding the dynamically allocated `CoAPMessage` objects -/

/-- The dynamic memory: `cells` maps an address (the index) to the `CoAPMessage`
living there, `none` for an address that holds no live object;
`message_count` is the static member `CoAPMessage::message_count`. -/
structure Memory where
  cells : List (Option CoAPMessage)
  message_count : Nat
  deriving DecidableEq, Repr

namespace Memory

/-- The memory with no live object. -/
def empty : Memory := { cells := [], message_count := 0 }

/-- Dereference a pointer: the object at address `p`, if one lives there. -/
def read (mem : Memory) (p : Nat) : Option CoAPMessage := mem.cells.getD p none

/-- Store an object at address `p`. -/
def write (mem : Memory) (p : Nat) (m : CoAPMessage) : Memory :=
  { mem with cells := (mem.cells ++ List.replicate (p + 1 - mem.cells.length) none).set p (some m) }

/-- The in-place `new (memory) CoAPMessage(id_)`: run the constructor at address
`p`; the constructor increments the 16-bit `message_count`. -/
def construct (mem : Memory) (p : Nat) (id_ : Nat) : Memory :=
  { (mem.write p (CoAPMessage.init id_)) with message_count := (mem.message_count + 1) % 65536 }

end Memory

/-- The static method `CoAPMessage::create(Message& msg)`. `memory` is the result
of `new uint8_t[sizeof(CoAPMessage)+len]`: the address of the new block, or
`none` for a null result. Returns the memory and the pointer returned. The
constructor runs at that address and `set_data` then acts on the object just
constructed; the result of `set_data` is not looked at. -/
def CoAPMessage.create (mem : Memory) (memory : Option Nat) (msg : Message) :
    Memory × Option Nat :=
  let len := msg.length
  match memory with
  | some p =>
    let mem := mem.construct p msg.get_id
    let coapmsg := ((CoAPMessage.init msg.get_id).set_data msg.buf len).1
    (mem.write p coapmsg, some p)
  | none => (mem, none)

/-! ## `coap_channel.h`: class `CoAPMessageStore` -/

/-- The class `CoAPMessageStore`: the head of the singly linked list. -/
structure CoAPMessageStore where
  head : Option Nat
  deriving DecidableEq, Repr

namespace CoAPMessageStore

/-- The constructor: `head(nullptr)`. -/
def init : CoAPMessageStore := { head := none }

/-- The loop of `for_id`, started at pointer `next` with `prev` the entry before
it. The first argument bounds the number of iterations; a run that needs more
iterations, or reads an address with no live object, gives `none`. Returns the
returned pointer and the final `prev`. -/
def for_id_loop (mem : Memory) (id : Nat) :
    Nat → Option Nat → Option Nat → Option (Option Nat × Option Nat)
  | 0, _, _ => none
  | _ + 1, prev, none => some (none, prev)
  | fuel + 1, prev, some p =>
    match mem.read p with
    | none => none
    | some m =>
      if m.matches id then some (some p, prev)
      else for_id_loop mem id fuel (some p) m.get_next

/-- The private method `for_id(id, prev)`. A list of distinct live objects has
at most `cells.length` elements, so a walk that has not ended after
`cells.length + 1` iterations is inside a cycle and never ends. -/
def for_id (mem : Memory) (s : CoAPMessageStore) (id : Nat) :
    Option (Option Nat × Option Nat) :=
  for_id_loop mem id (mem.cells.length + 1) none s.head

/-- The private method `remove(CoAPMessage* message, CoAPMessage* previous)`. -/
def remove_previous (mem : Memory) (s : CoAPMessageStore) (message : Nat)
    (previous : Option Nat) : Option (Memory × CoAPMessageStore) := do
  let m ← mem.read message
  let r ← (match previous with
    | some q => do
      let pm ← mem.read q
      pure (mem.write q (pm.set_next m.get_next), s)
    | none => pure (mem, { s with head := m.get_next }))
  let m1 ← r.1.read message
  pure (r.1.write message m1.removed, r.2)

/-- The method `from_id(id)`. -/
def from_id (mem : Memory) (s : CoAPMessageStore) (id : Nat) : Option (Option Nat) := do
  let r ← s.for_id mem id
  pure r.1

/-- The method `remove(message_id_t msg_id)`: returns the removed pointer, or
`nullptr`. -/
def remove (mem : Memory) (s : CoAPMessageStore) (msg_id : Nat) :
    Option (Memory × CoAPMessageStore × Option Nat) := do
  let r ← s.for_id mem msg_id
  match r.1 with
  | some p => do
    let t ← s.remove_previous mem p r.2
    pure (t.1, t.2, some p)
  | none => pure (mem, s, none)

/-- The method `remove(CoAPMessage& msg)`: `remove(msg.get_id()) == &msg`. -/
def remove_message (mem : Memory) (s : CoAPMessageStore) (msg : Nat) :
    Option (Memory × CoAPMessageStore × Bool) := do
  let m ← mem.read msg
  let t ← s.remove mem m.get_id
  pure (t.1, t.2.1, decide (t.2.2 = some msg))

/-- The method `add(CoAPMessage& message)`. -/
def add (mem : Memory) (s : CoAPMessageStore) (message : Nat) :
    Option (Memory × CoAPMessageStore × ProtocolError) := do
  let t ← s.remove_message mem message
  let m ← t.1.read message
  if m.get_next.isSome then
    pure (t.1, t.2.1, ProtocolError.INVALID_STATE)
  else
    pure (t.1.write message (m.set_next t.2.1.head), { t.2.1 with head := some message },
      ProtocolError.NO_ERROR)

/-- The method `is_confirmable(buf)`, over the external decoder `CoAP::type`. -/
def is_confirmable (CoAP_type : List Nat → CoAPType) (buf : List Nat) : Bool :=
  decide (CoAP_type buf = CoAPType.CON)

/-- The method `process(system_tick_t time)`: the body is empty. -/
def process (mem : Memory) (s : CoAPMessageStore) (_time : Nat) : Memory × CoAPMessageStore :=
  (mem, s)

/-- The method `send(Message& msg, system_tick_t time)`. `memory` is the result
of the allocation done by `CoAPMessage::create`. The result of `add` is not
looked at. -/
def send (CoAP_type : List Nat → CoAPType) (memory : Option Nat) (mem : Memory)
    (s : CoAPMessageStore) (msg : Message) (_time : Nat) :
    Option (Memory × CoAPMessageStore × ProtocolError) :=
  if !msg.has_id then
    pure (mem, s, ProtocolError.MISSING_MESSAGE_ID)
  else if is_confirmable CoAP_type msg.buf then
    let c := CoAPMessage.create mem memory msg
    match c.2 with
    | none => pure (c.1, s, ProtocolError.INSUFFICIENT_STORAGE)
    | some coapmsg => do
      let t ← s.add c.1 coapmsg
      pure (t.1, t.2.1, ProtocolError.NO_ERROR)
  else
    pure (mem, s, ProtocolError.NO_ERROR)

end CoAPMessageStore

/-- The list segment: starting at pointer `p`, following the `next` links visits
exactly the live objects at the addresses `l`, in this order, and ends at
pointer `q`. -/
def Seg (mem : Memory) : Option Nat → List Nat → Option Nat → Prop
  | p, [], q => p = q
  | p, a :: l, q => p = some a ∧
      match mem.read a with
      | some m => Seg mem m.next l q
      | none => False

/-- A store in a consistent state: the `next` links from `head` run through the
addresses `l` and end at `nullptr`. -/
def CoAPMessageStore.linked (mem : Memory) (s : CoAPMessageStore) (l : List Nat) : Prop :=
  Seg mem s.head l none

/-- A sample of the external decoder `CoAP::type`, used to run the store on
concrete packets: the two type bits of the first header byte. -/
def sample_type (buf : List Nat) : CoAPType :=
  match (buf.getD 0 0 / 16) % 4 with
  | 0 => CoAPType.CON
  | 1 => CoAPType.NON
  | 2 => CoAPType.ACK
  | _ => CoAPType.RESET

/-- Whether a live object with the given id is at address `a`. -/
def Memory.hit (mem : Memory) (id : Nat) (a : Nat) : Bool :=
  match mem.read a with
  | some m => m.matches id
  | none => false

/-- The last address of `l`, or `prev` when `l` is empty: the value of `prev` in
`for_id` after walking over `l`. -/
def last_or (prev : Option Nat) (l : List Nat) : Option Nat :=
  match l.getLast? with
  | some a => some a
  | none => prev

/-- Two memories that hold the same objects up to their `next` links. -/
def Memory.same_but_links (mem mem1 : Memory) : Prop :=
  (∀ b, (mem1.read b).map CoAPMessage.removed = (mem.read b).map CoAPMessage.removed) ∧
  mem1.message_count = mem.message_count ∧
  mem1.cells.length = mem.cells.length

/-- No two entries of the list share an id: every id is the id of at most one
entry. -/
def unique_ids (mem : Memory) (l : List Nat) : Prop :=
  ∀ id, l.countP (mem.hit id) ≤ 1

/-! ## Receiving, clearing and the reliable channel -/

/-- Modelled from the spec: `CoAP::message_id` of `coap.h`, which is not among
the sources. Bytes 2 and 3 of the header hold the 16-bit big-endian message
ID. -/
def CoAP_message_id (buf : List Nat) : Nat := (256 * buf.getD 2 0 + buf.getD 3 0) % 65536

/-- The method `Message::decode_id()`: with at least four bytes the ID is read
from the header and stored; returns the message and the returned flag. -/
def Message.decode_id (m : Message) : Message × Bool :=
  let decode := decide (m.length ≥ 4)
  if decode then (m.set_id (CoAP_message_id m.buf), decode) else (m, decode)

/-- The expression `delete p`: nothing for a null pointer; otherwise the
destructor decrements the 16-bit `message_count` and the storage of the object
is released. -/
def Memory.delete (mem : Memory) : Option Nat → Memory
  | none => mem
  | some p =>
    { cells := mem.cells.set p none, message_count := (mem.message_count + 65535) % 65536 }

namespace CoAPMessageStore

/-- The method `clear_message(id)`: `delete remove(id)`. -/
def clear_message (mem : Memory) (s : CoAPMessageStore) (id : Nat) :
    Option (Memory × CoAPMessageStore) := do
  let t ← s.remove mem id
  pure (t.1.delete t.2.2, t.2.1)

/-- The method `receive(Message& msg)`, over the external decoder `CoAP::type`.
Returns the memory, the store, the message (whose ID `decode_id` may have set)
and the result. -/
def receive (CoAP_type : List Nat → CoAPType) (mem : Memory) (s : CoAPMessageStore)
    (msg : Message) : Option (Memory × CoAPMessageStore × Message × ProtocolError) :=
  let msgtype := msg.get_type CoAP_type
  if msgtype = CoAPType.ACK ∨ msgtype = CoAPType.RESET then
    let d := msg.decode_id
    let id := d.1.get_id
    do
      let t ← s.clear_message mem id
      pure (t.1, t.2, d.1, ProtocolError.NO_ERROR)
  else
    pure (mem, s, msg, ProtocolError.NO_ERROR)

/-- The loop of `clear`: while `head` is not null, `delete remove(head->get_id())`.
The first argument bounds the number of iterations. -/
def clear_loop : Nat → Memory → CoAPMessageStore → Option (Memory × CoAPMessageStore)
  | 0, _, _ => none
  | fuel + 1, mem, s =>
    match s.head with
    | none => some (mem, s)
    | some h => do
      let m ← mem.read h
      let t ← s.remove mem m.get_id
      clear_loop fuel (t.1.delete t.2.2) t.2.1

/-- The method `clear()`. Every iteration that ends releases one object, so a
run of more than `cells.length` iterations does not end. -/
def clear (mem : Memory) (s : CoAPMessageStore) : Option (Memory × CoAPMessageStore) :=
  clear_loop (mem.cells.length + 1) mem s

end CoAPMessageStore

/-- The class template `CoAPReliableChannel<T>`: the inherited store next to the
state `base` of the transport `T`. -/
structure CoAPReliableChannel (σ : Type) where
  store : CoAPMessageStore
  base : σ

namespace CoAPReliableChannel

/-- The method `establish()`: clear the store, then `return channel::establish()`.
`T_establish` is the transport's `establish`. -/
def establish {σ : Type} (T_establish : σ → ProtocolError × σ) (mem : Memory)
    (c : CoAPReliableChannel σ) : Option (Memory × CoAPReliableChannel σ × ProtocolError) := do
  let t ← c.store.clear mem
  let r := T_establish c.base
  pure (t.1, { store := t.2, base := r.2 }, r.1)

/-- The method `send(Message& msg)`: register with the store at tick `millis`,
and only if that gave `NO_ERROR` call the transport's `send`. `memory` is the
result of the allocation done while registering. -/
def send {σ : Type} (CoAP_type : List Nat → CoAPType)
    (T_send : Message → σ → ProtocolError × Message × σ) (memory : Option Nat) (millis : Nat)
    (mem : Memory) (c : CoAPReliableChannel σ) (msg : Message) :
    Option (Memory × CoAPReliableChannel σ × Message × ProtocolError) := do
  let t ← c.store.send CoAP_type memory mem msg millis
  if t.2.2 = ProtocolError.NO_ERROR then
    let r := T_send msg c.base
    pure (t.1, { store := t.2.1, base := r.2.2 }, r.2.1, r.1)
  else
    pure (t.1, { store := t.2.1, base := c.base }, msg, t.2.2)

/-- The method `receive(Message& msg)`: a message with a length goes to the
store's `receive`, anything else triggers `process` at tick `millis`. -/
def receive {σ : Type} (CoAP_type : List Nat → CoAPType)
    (T_receive : Message → σ → ProtocolError × Message × σ) (millis : Nat)
    (mem : Memory) (c : CoAPReliableChannel σ) (msg : Message) :
    Option (Memory × CoAPReliableChannel σ × Message × ProtocolError) :=
  let r := T_receive msg c.base
  if r.1 = ProtocolError.NO_ERROR ∧ r.2.1.length ≠ 0 then do
    let t ← c.store.receive CoAP_type mem r.2.1
    pure (t.1, { store := t.2.1, base := r.2.2 }, t.2.2.1, r.1)
  else
    let p := c.store.process mem millis
    pure (p.1, { store := p.2, base := r.2.2 }, r.2.1, r.1)

end CoAPReliableChannel

/-! ## Sequences of public store operations -/

/-- Successive calls of `prepare_retransmit` on one message, one call per
element of `calls` (the tick and the `rand()` value of that call). Returns the
message after the last call and the flags returned, in call order. -/
def prepare_retransmit_calls (m : CoAPMessage) : List (Nat × Nat) → CoAPMessage × List Bool
  | [] => (m, [])
  | c :: cs =>
    let s := m.prepare_retransmit c.1 c.2
    let t := prepare_retransmit_calls s.1 cs
    (t.1, s.2 :: t.2)

/-- Successive calls of `CoAPChannel::send`, one per message of the list, each
on the channel left by the previous one; returns the channel after the last
call. -/
def CoAPChannel.send_all {σ : Type} (T_send : Message → σ → ProtocolError × Message × σ)
    (c : CoAPChannel σ) : List Message → CoAPChannel σ
  | [] => c
  | m :: ms => CoAPChannel.send_all T_send (c.send T_send m).2.2 ms

/-- The 16-bit big-endian value held by bytes 2 and 3 of a buffer. -/
def header_id (buf : List Nat) : Nat := 256 * buf.getD 2 0 + buf.getD 3 0

/-- A transport `send` that accepts every message and leaves it untouched. -/
def T_send_accept : Message → Unit → ProtocolError × Message × Unit :=
  fun m u => (ProtocolError.NO_ERROR, m, u)

/-- Successive calls of `CoAPMessageStore::process`, one per tick of the list. -/
def CoAPMessageStore.process_sweeps (mem : Memory) (s : CoAPMessageStore) :
    List Nat → Memory × CoAPMessageStore
  | [] => (mem, s)
  | t :: ts =>
    let r := s.process mem t
    CoAPMessageStore.process_sweeps r.1 r.2 ts

/-- A confirmable four-byte packet carrying the assigned ID 5. -/
def msg5 : Message := (Message.create [0x40, 0x01, 0, 5] 4 4).set_id 5

/-- A confirmable packet of 1501 bytes carrying the assigned ID 5. -/
def msg_oversized : Message :=
  (Message.create (0x40 :: List.replicate 1500 0) 1501 1501).set_id 5

/-- A non-confirmable four-byte packet carrying the assigned ID 9. -/
def msg_non9 : Message := (Message.create [0x50, 0x01, 0, 9] 4 4).set_id 9

/-- A confirmable four-byte packet carrying the assigned ID 7. -/
def msg7 : Message := (Message.create [0x40, 0x01, 0, 7] 4 4).set_id 7

/-- An acknowledgement whose header carries the ID 7, as it arrives: no ID
decoded yet. -/
def ack7 : Message := Message.create [0x60, 0x00, 0, 7] 4 4

/-- A truncated acknowledgement of three bytes, no ID decoded. -/
def ack_short : Message := Message.create [0x60, 0x00, 0] 3 3

/-- A transport `establish` that fails with `IO_ERROR`. -/
def T_establish_fail : Unit → ProtocolError × Unit :=
  fun u => (ProtocolError.IO_ERROR, u)

/-- A transport `send` that counts its calls in the transport state. -/
def T_send_count : Message → Nat → ProtocolError × Message × Nat :=
  fun m n => (ProtocolError.NO_ERROR, m, n + 1)

/-- A memory with two entries: id 7 at address 0, and id 5 at address 1 linked
to address 0; a store with `head` at address 1 holds the list `[1, 0]`. -/
def mem57 : Memory :=
  (Memory.empty.write 0 (CoAPMessage.init 7)).write 1 ((CoAPMessage.init 5).set_next (some 0))

/-- The memory `mem57` with one more entry at address 2: id 9, linked to
address 0 from outside the list of the store. -/
def mem579 : Memory := mem57.write 2 ((CoAPMessage.init 9).set_next (some 0))

theorem thp_iff (now tick : Nat) :
    time_has_passed now tick = true ↔
      (tick ≤ now ∧ now - tick ≤ 0x7FFFFFFF) ∨ (now < tick ∧ 0x80000000 ≤ tick - now) := by
  unfold time_has_passed
  split <;> simp <;> omega

theorem prepare_retransmit_count (m : CoAPMessage) (now r : Nat) :
    (m.prepare_retransmit now r).1.transmit_count = (m.transmit_count + 1) % 256 := rfl

theorem prepare_retransmit_flag (m : CoAPMessage) (now r : Nat) :
    (m.prepare_retransmit now r).2 = decide ((m.transmit_count + 1) % 256 ≤ 4) := rfl

theorem prepare_retransmit_calls_flag (calls : List (Nat × Nat)) :
    ∀ (m : CoAPMessage) (k : Nat), k < calls.length →
      (prepare_retransmit_calls m calls).2.getD k false
        = decide ((m.transmit_count + k + 1) % 256 ≤ 4) := by
  induction calls with
  | nil => intro m k hk; simp at hk
  | cons c cs ih =>
    intro m k hk
    cases k with
    | zero => simp [prepare_retransmit_calls, prepare_retransmit_flag]
    | succ k =>
      simp only [prepare_retransmit_calls, List.getD_cons_succ]
      rw [ih _ k (by simpa using hk), prepare_retransmit_count]
      congr 1
      apply propext
      omega

theorem jitter_zero (x : Nat) : (x % 256) >>> 9 = 0 := by
  rw [Nat.shiftRight_eq_div_pow]
  exact Nat.div_eq_of_lt (Nat.lt_trans (Nat.mod_lt _ (by decide)) (by decide))

theorem transmit_timeout_eq (n r : Nat) (hn : n ≤ 4) :
    CoAPMessage.transmit_timeout n r = 2000 * 2 ^ n := by
  simp only [CoAPMessage.transmit_timeout, jitter_zero, CoAPMessage.ACK_TIMEOUT,
    Nat.shiftLeft_eq, Nat.add_zero, Nat.mod_mod]
  interval_cases n <;> rfl

theorem id_bytes (i : Nat) (hi : i < 65536) :
    (i >>> 8) % 256 = i >>> 8 ∧ (i &&& 0xFF) % 256 = i &&& 0xFF ∧
    256 * (i >>> 8) + (i &&& 0xFF) = i := by
  have h1 : i &&& 0xFF = i % 256 := Nat.and_pow_two_sub_one_eq_mod i 8
  rw [h1, Nat.shiftRight_eq_div_pow]
  omega

theorem get_id_lt (m : Message) : m.get_id < 65536 := by
  unfold Message.get_id
  omega

theorem stamp_buffer (buf : List Nat) (a b : Nat) (h : 4 ≤ buf.length) :
    ((buf.set 2 a).set 3 b).getD 2 0 = a ∧ ((buf.set 2 a).set 3 b).getD 3 0 = b ∧
    ((buf.set 2 a).set 3 b).length = buf.length ∧
    ∀ j, j ≠ 2 → j ≠ 3 → ((buf.set 2 a).set 3 b)[j]? = buf[j]? := by
  refine ⟨?_, ?_, by simp, ?_⟩
  · have h2 : 2 < buf.length := by omega
    simp [List.getD_eq_getElem?_getD, List.getElem?_set, h2]
  · have h3 : 3 < buf.length := by omega
    simp [List.getD_eq_getElem?_getD, List.getElem?_set, h3]
  · intro j h2 h3
    simp [List.getElem?_set, Ne.symm h2, Ne.symm h3]

theorem stamp_no_id {σ : Type} (c : CoAPChannel σ) (msg : Message) (h : msg.has_id = false) :
    c.stamp msg = ({ c with message_id := (c.message_id + 1) % 65536 },
      { msg with buffer := List.set (List.set msg.buffer 2 ((((c.message_id + 1) % 65536) >>> 8) % 256)) 3 ((((c.message_id + 1) % 65536) &&& 0xFF) % 256) }) := by
  simp [CoAPChannel.stamp, h, CoAPChannel.next_message_id, Message.buf]

theorem stamp_has_id {σ : Type} (c : CoAPChannel σ) (msg : Message) (h : msg.has_id = true) :
    c.stamp msg = (c,
      { msg with buffer := List.set (List.set msg.buffer 2 ((msg.get_id >>> 8) % 256)) 3 ((msg.get_id &&& 0xFF) % 256) }) := by
  simp [CoAPChannel.stamp, h, Message.buf]

theorem send_counter {σ : Type} (T_send : Message → σ → ProtocolError × Message × σ)
    (c : CoAPChannel σ) (msg : Message) :
    (c.send T_send msg).2.2.message_id
      = if msg.has_id then c.message_id else (c.message_id + 1) % 65536 := by
  cases h : msg.has_id
  · simp [CoAPChannel.send, stamp_no_id c msg h]
  · simp [CoAPChannel.send, stamp_has_id c msg h]

theorem send_all_counter {σ : Type} (T_send : Message → σ → ProtocolError × Message × σ)
    (msgs : List Message) : ∀ c : CoAPChannel σ,
    (CoAPChannel.send_all T_send c msgs).message_id % 65536
      = (c.message_id + (msgs.filter (fun m => !m.has_id)).length) % 65536 := by
  induction msgs with
  | nil => intro c; simp [CoAPChannel.send_all]
  | cons m ms ih =>
    intro c
    simp only [CoAPChannel.send_all]
    rw [ih, send_counter]
    cases h : m.has_id <;> simp [List.filter, h]
    omega

/-! ## Memory and list-segment lemmas -/

theorem Memory.read_write_same (mem : Memory) (p : Nat) (m : CoAPMessage) :
    (mem.write p m).read p = some m := by
  simp only [Memory.read, Memory.write, List.getD_eq_getElem?_getD]
  rw [List.getElem?_set_self (by simp; omega)]
  rfl

theorem Memory.read_write_ne (mem : Memory) (p q : Nat) (m : CoAPMessage) (h : q ≠ p) :
    (mem.write p m).read q = mem.read q := by
  simp only [Memory.read, Memory.write, List.getD_eq_getElem?_getD]
  rw [List.getElem?_set_ne (Ne.symm h)]
  by_cases hq : q < mem.cells.length
  · rw [List.getElem?_append_left hq]
  · rw [List.getElem?_append_right (by omega)]
    rw [List.getElem?_eq_none (by omega : mem.cells.length ≤ q)]
    by_cases h2 : q - mem.cells.length < p + 1 - mem.cells.length
    · rw [List.getElem?_replicate_of_lt h2]; rfl
    · rw [List.getElem?_eq_none (by simp; omega)]

theorem Memory.read_lt (mem : Memory) (p : Nat) (m : CoAPMessage) (h : mem.read p = some m) :
    p < mem.cells.length := by
  by_contra hp
  simp only [Memory.read, List.getD_eq_getElem?_getD] at h
  rw [List.getElem?_eq_none (by omega)] at h
  simp at h

theorem Memory.write_message_count (mem : Memory) (p : Nat) (m : CoAPMessage) :
    (mem.write p m).message_count = mem.message_count := rfl

theorem Memory.write_length_live (mem : Memory) (p : Nat) (m m0 : CoAPMessage)
    (h : mem.read p = some m0) : (mem.write p m).cells.length = mem.cells.length := by
  have := Memory.read_lt mem p m0 h
  simp [Memory.write]
  omega

theorem Memory.read_construct_ne (mem : Memory) (p q id_ : Nat) (h : q ≠ p) :
    (mem.construct p id_).read q = mem.read q :=
  Memory.read_write_ne mem p q _ h

theorem Seg_frame (mem mem1 : Memory) (l : List Nat) :
    ∀ (p q : Option Nat), (∀ a ∈ l, mem1.read a = mem.read a) →
      Seg mem p l q → Seg mem1 p l q := by
  induction l with
  | nil => intro p q _ h; exact h
  | cons a l ih =>
    intro p q hf h
    obtain ⟨hp, hr⟩ := h
    refine ⟨hp, ?_⟩
    rw [hf a (List.mem_cons_self a l)]
    cases hm : mem.read a with
    | none => rw [hm] at hr; exact hr
    | some m =>
      rw [hm] at hr
      exact ih _ _ (fun b hb => hf b (List.mem_cons_of_mem a hb)) hr

theorem Seg_cons (mem : Memory) (p q : Option Nat) (a : Nat) (l : List Nat) :
    Seg mem p (a :: l) q ↔ p = some a ∧ ∃ m, mem.read a = some m ∧ Seg mem m.next l q := by
  constructor
  · intro h
    obtain ⟨hp, hr⟩ := h
    cases hm : mem.read a with
    | none => rw [hm] at hr; exact hr.elim
    | some m => rw [hm] at hr; exact ⟨hp, m, rfl, hr⟩
  · rintro ⟨hp, m, hm, hr⟩
    refine ⟨hp, ?_⟩
    rw [hm]; exact hr

theorem Seg_append (mem : Memory) (l1 l2 : List Nat) :
    ∀ (p q : Option Nat), Seg mem p (l1 ++ l2) q ↔ ∃ r, Seg mem p l1 r ∧ Seg mem r l2 q := by
  induction l1 with
  | nil =>
    intro p q
    constructor
    · intro h; exact ⟨p, rfl, h⟩
    · rintro ⟨r, hr, h⟩
      have : p = r := hr
      subst this; exact h
  | cons a l1 ih =>
    intro p q
    rw [List.cons_append, Seg_cons]
    constructor
    · rintro ⟨hp, m, hm, h⟩
      obtain ⟨r, h1, h2⟩ := (ih _ _).1 h
      exact ⟨r, (Seg_cons _ _ _ _ _).2 ⟨hp, m, hm, h1⟩, h2⟩
    · rintro ⟨r, h1, h2⟩
      obtain ⟨hp, m, hm, h1⟩ := (Seg_cons _ _ _ _ _).1 h1
      exact ⟨hp, m, hm, (ih _ _).2 ⟨r, h1, h2⟩⟩

theorem Seg_live (mem : Memory) (l : List Nat) :
    ∀ (p q : Option Nat), Seg mem p l q → ∀ a ∈ l, ∃ m, mem.read a = some m := by
  induction l with
  | nil => intro p q _ a ha; simp at ha
  | cons b l ih =>
    intro p q h a ha
    obtain ⟨_, m, hm, hr⟩ := (Seg_cons _ _ _ _ _).1 h
    rcases List.mem_cons.1 ha with rfl | ha
    · exact ⟨m, hm⟩
    · exact ih _ _ hr a ha

theorem Seg_unique (mem : Memory) (l : List Nat) :
    ∀ (p : Option Nat) (l1 : List Nat), Seg mem p l none → Seg mem p l1 none → l = l1 := by
  induction l with
  | nil =>
    intro p l1 h h1
    have hp : p = none := h
    subst hp
    cases l1 with
    | nil => rfl
    | cons b l1 => exact absurd h1.1 (by simp)
  | cons a l ih =>
    intro p l1 h h1
    obtain ⟨hp, m, hm, hr⟩ := (Seg_cons _ _ _ _ _).1 h
    subst hp
    cases l1 with
    | nil => exact absurd (show some a = none from h1) (by simp)
    | cons b l1 =>
      obtain ⟨hp1, m1, hm1, hr1⟩ := (Seg_cons _ _ _ _ _).1 h1
      have hab : a = b := Option.some.inj hp1
      subst hab
      rw [hm] at hm1
      have : m = m1 := Option.some.inj hm1
      subst this
      rw [ih _ _ hr hr1]

theorem Seg_nodup (mem : Memory) (l : List Nat) :
    ∀ (p : Option Nat), Seg mem p l none → l.Nodup := by
  induction l with
  | nil => intro p _; exact List.nodup_nil
  | cons a l ih =>
    intro p h
    obtain ⟨_, m, hm, hr⟩ := (Seg_cons _ _ _ _ _).1 h
    refine List.nodup_cons.2 ⟨?_, ih _ hr⟩
    intro ha
    obtain ⟨l1, l2, hl⟩ := List.append_of_mem ha
    rw [hl] at hr
    obtain ⟨r, _, h2⟩ := (Seg_append _ _ _ _ _).1 hr
    obtain ⟨hr2, m2, hm2, h3⟩ := (Seg_cons _ _ _ _ _).1 h2
    rw [hm] at hm2
    have : m = m2 := Option.some.inj hm2
    subst this
    have hlen := congrArg List.length (Seg_unique mem _ _ _ hr h3)
    simp at hlen
    omega

theorem Seg_length_le (mem : Memory) (l : List Nat) (p : Option Nat)
    (h : Seg mem p l none) : l.length ≤ mem.cells.length := by
  have hnd := Seg_nodup mem l p h
  have hsub : l ⊆ List.range mem.cells.length := by
    intro a ha
    obtain ⟨m, hm⟩ := Seg_live mem l p none h a ha
    exact List.mem_range.2 (Memory.read_lt mem a m hm)
  have := (List.subperm_of_subset hnd hsub).length_le
  simpa using this

/-! ## The traversal `for_id` and the unlinking `remove` -/

theorem last_or_cons (prev : Option Nat) (a : Nat) (l : List Nat) :
    last_or prev (a :: l) = last_or (some a) l := by
  cases l with
  | nil => rfl
  | cons b l =>
    have h : (b :: l).getLast? = some ((b :: l).getLast (by simp)) := List.getLast?_eq_getLast _ _
    simp only [last_or, List.getLast?_cons_cons, h]

theorem last_or_concat (prev : Option Nat) (a : Nat) (l : List Nat) :
    last_or prev (l ++ [a]) = some a := by
  simp [last_or]

theorem for_id_loop_miss (mem : Memory) (id : Nat) (l : List Nat) :
    ∀ (fuel : Nat) (prev p : Option Nat), Seg mem p l none →
      (∀ a ∈ l, mem.hit id a = false) → l.length < fuel →
      CoAPMessageStore.for_id_loop mem id fuel prev p = some (none, last_or prev l) := by
  induction l with
  | nil =>
    intro fuel prev p h _ hf
    have hp : p = none := h
    subst hp
    cases fuel with
    | zero => simp at hf
    | succ fuel => rfl
  | cons a l ih =>
    intro fuel prev p h hm hf
    obtain ⟨hp, m, hr, hs⟩ := (Seg_cons _ _ _ _ _).1 h
    subst hp
    cases fuel with
    | zero => simp at hf
    | succ fuel =>
      have ha := hm a (List.mem_cons_self a l)
      simp only [Memory.hit, hr] at ha
      simp only [CoAPMessageStore.for_id_loop, hr, ha, CoAPMessage.get_next]
      rw [last_or_cons]
      exact ih fuel (some a) m.next hs (fun b hb => hm b (List.mem_cons_of_mem a hb))
        (by simpa using hf)

theorem for_id_loop_hit (mem : Memory) (id : Nat) (a : Nat) (l2 : List Nat) (q : Option Nat)
    (l1 : List Nat) :
    ∀ (fuel : Nat) (prev p : Option Nat), Seg mem p (l1 ++ a :: l2) q →
      (∀ b ∈ l1, mem.hit id b = false) → mem.hit id a = true → l1.length < fuel →
      CoAPMessageStore.for_id_loop mem id fuel prev p = some (some a, last_or prev l1) := by
  induction l1 with
  | nil =>
    intro fuel prev p h _ ha hf
    obtain ⟨hp, m, hr, _⟩ := (Seg_cons _ _ _ _ _).1 h
    subst hp
    cases fuel with
    | zero => simp at hf
    | succ fuel =>
      simp only [Memory.hit, hr] at ha
      simp [CoAPMessageStore.for_id_loop, hr, ha, last_or]
  | cons b l1 ih =>
    intro fuel prev p h hm ha hf
    obtain ⟨hp, m, hr, hs⟩ := (Seg_cons _ _ _ _ _).1 h
    subst hp
    cases fuel with
    | zero => simp at hf
    | succ fuel =>
      have hb := hm b (List.mem_cons_self b l1)
      simp only [Memory.hit, hr] at hb
      simp only [CoAPMessageStore.for_id_loop, hr, hb, CoAPMessage.get_next]
      rw [last_or_cons]
      exact ih fuel (some b) m.next hs (fun c hc => hm c (List.mem_cons_of_mem b hc)) ha
        (by simpa using hf)

theorem split_first (P : Nat → Bool) (l : List Nat) :
    (∀ a ∈ l, P a = false) ∨
    ∃ l1 a l2, l = l1 ++ a :: l2 ∧ (∀ b ∈ l1, P b = false) ∧ P a = true := by
  induction l with
  | nil => left; intro a ha; simp at ha
  | cons x l ih =>
    cases hx : P x with
    | true => right; exact ⟨[], x, l, rfl, by simp, hx⟩
    | false =>
      rcases ih with h | ⟨l1, a, l2, hl, h1, h2⟩
      · left
        intro a ha
        rcases List.mem_cons.1 ha with rfl | ha
        · exact hx
        · exact h a ha
      · right
        refine ⟨x :: l1, a, l2, by rw [hl]; rfl, ?_, h2⟩
        intro b hb
        rcases List.mem_cons.1 hb with rfl | hb
        · exact hx
        · exact h1 b hb

theorem find_miss (P : Nat → Bool) (l : List Nat) (h : ∀ a ∈ l, P a = false) :
    l.find? P = none ∧ l.eraseP P = l := by
  constructor
  · rw [List.find?_eq_none]
    intro a ha; simp [h a ha]
  · apply List.eraseP_of_forall_not
    intro a ha; simp [h a ha]

theorem find_hit (P : Nat → Bool) (l1 l2 : List Nat) (a : Nat)
    (h1 : ∀ b ∈ l1, P b = false) (ha : P a = true) :
    (l1 ++ a :: l2).find? P = some a ∧ (l1 ++ a :: l2).eraseP P = l1 ++ l2 := by
  induction l1 with
  | nil => simp [ha]
  | cons x l1 ih =>
    have hx := h1 x (List.mem_cons_self x l1)
    have := ih (fun b hb => h1 b (List.mem_cons_of_mem x hb))
    simp [hx, this.1, this.2]

theorem for_id_spec (mem : Memory) (s : CoAPMessageStore) (id : Nat) (l : List Nat)
    (h : s.linked mem l) :
    ∃ prev, s.for_id mem id = some (l.find? (mem.hit id), prev) ∧
      ∀ l1 a l2, l = l1 ++ a :: l2 → (∀ b ∈ l1, mem.hit id b = false) → mem.hit id a = true →
        prev = last_or none l1 := by
  have hlen := Seg_length_le mem l s.head h
  rcases split_first (mem.hit id) l with hm | ⟨l1, a, l2, hl, h1, ha⟩
  · refine ⟨last_or none l, ?_, ?_⟩
    · rw [(find_miss _ _ hm).1]
      exact for_id_loop_miss mem id l _ none s.head h hm (by omega)
    · intro l1 a l2 hl _ ha
      rw [hm a (by rw [hl]; simp)] at ha
      exact absurd ha (by simp)
  · subst hl
    refine ⟨last_or none l1, ?_, ?_⟩
    · rw [(find_hit _ _ _ _ h1 ha).1]
      exact for_id_loop_hit mem id a l2 none l1 _ none s.head h h1 ha
        (by simp at hlen; omega)
    · intro k1 b k2 hk hk1 hb
      have e1 := (find_hit (mem.hit id) l1 l2 a h1 ha).2
      have e2 := (find_hit (mem.hit id) k1 k2 b hk1 hb).2
      have f1 := (find_hit (mem.hit id) l1 l2 a h1 ha).1
      have f2 := (find_hit (mem.hit id) k1 k2 b hk1 hb).1
      rw [← hk] at e2 f2
      rw [f1] at f2
      have hab : a = b := Option.some.inj f2
      subst hab
      -- both splits are at the first hit, so the prefixes agree
      have : l1 = k1 := by
        clear e1 e2 f1 f2 hlen h
        induction l1 generalizing k1 with
        | nil =>
          cases k1 with
          | nil => rfl
          | cons x k1 =>
            simp at hk
            have := hk1 x (List.mem_cons_self x k1)
            rw [← hk.1, ha] at this
            exact absurd this (by simp)
        | cons y l1 ih =>
          cases k1 with
          | nil =>
            simp at hk
            have := h1 y (List.mem_cons_self y l1)
            rw [hk.1, ha] at this
            exact absurd this (by simp)
          | cons x k1 =>
            simp at hk
            rw [hk.1, ih (fun b hb => h1 b (List.mem_cons_of_mem y hb)) k1
              (fun b hb => hk1 b (List.mem_cons_of_mem x hb)) hk.2]
      rw [this]

theorem from_id_spec (mem : Memory) (s : CoAPMessageStore) (id : Nat) (l : List Nat)
    (h : s.linked mem l) : s.from_id mem id = some (l.find? (mem.hit id)) := by
  obtain ⟨prev, hp, _⟩ := for_id_spec mem s id l h
  simp [CoAPMessageStore.from_id, hp]

theorem removed_removed (m : CoAPMessage) : m.removed.removed = m.removed := rfl

theorem set_next_removed (m : CoAPMessage) (n : Option Nat) :
    (m.set_next n).removed = m.removed := rfl

theorem Memory.same_but_links_refl (mem : Memory) : mem.same_but_links mem :=
  ⟨fun _ => rfl, rfl, rfl⟩

theorem Memory.same_but_links_trans (m1 m2 m3 : Memory) (h12 : m1.same_but_links m2)
    (h23 : m2.same_but_links m3) : m1.same_but_links m3 :=
  ⟨fun b => (h23.1 b).trans (h12.1 b), h23.2.1.trans h12.2.1, h23.2.2.trans h12.2.2⟩

theorem Memory.same_but_links_write (mem : Memory) (p : Nat) (m m1 : CoAPMessage)
    (h : mem.read p = some m) (hm : m1.removed = m.removed) :
    mem.same_but_links (mem.write p m1) := by
  refine ⟨?_, rfl, Memory.write_length_live mem p m1 m h⟩
  intro b
  by_cases hb : b = p
  · subst hb
    rw [Memory.read_write_same, h]
    simp [hm]
  · rw [Memory.read_write_ne mem p b m1 hb]

theorem Memory.hit_of_removed_eq (mem mem1 : Memory) (id b : Nat)
    (h : (mem1.read b).map CoAPMessage.removed = (mem.read b).map CoAPMessage.removed) :
    mem1.hit id b = mem.hit id b := by
  simp only [Memory.hit]
  cases h1 : mem1.read b with
  | none =>
    cases h0 : mem.read b with
    | none => rfl
    | some m0 => rw [h1, h0] at h; simp at h
  | some m1 =>
    cases h0 : mem.read b with
    | none => rw [h1, h0] at h; simp at h
    | some m0 =>
      rw [h1, h0] at h
      have e : m1.removed = m0.removed := by simpa using h
      have hid := congrArg CoAPMessage.id e
      have : m1.id = m0.id := hid
      simp [CoAPMessage.matches, this]

theorem remove_previous_spec (mem : Memory) (s : CoAPMessageStore) (l1 l2 : List Nat) (a : Nat)
    (h : s.linked mem (l1 ++ a :: l2)) :
    ∃ mem1 s1 m, s.remove_previous mem a (last_or none l1) = some (mem1, s1) ∧
      s1.linked mem1 (l1 ++ l2) ∧ mem.same_but_links mem1 ∧
      (∀ b, b ∉ l1 ++ a :: l2 → mem1.read b = mem.read b) ∧
      mem.read a = some m ∧ mem1.read a = some m.removed := by
  have hnd := Seg_nodup mem _ _ h
  rcases List.eq_nil_or_concat l1 with hl | ⟨k, q, hl⟩
  · subst hl
    obtain ⟨hp, m, hm, hs⟩ := (Seg_cons _ _ _ _ _).1 h
    have ha2 : a ∉ l2 := (List.nodup_cons.1 hnd).1
    refine ⟨mem.write a m.removed, { s with head := m.next }, m, ?_, ?_, ?_, ?_, hm, ?_⟩
    · simp [CoAPMessageStore.remove_previous, last_or, hm, CoAPMessage.get_next]
    · refine Seg_frame mem _ l2 _ _ ?_ hs
      intro b hb
      exact Memory.read_write_ne mem a b _ (fun e => ha2 (e ▸ hb))
    · exact Memory.same_but_links_write mem a m m.removed hm rfl
    · intro b hb
      exact Memory.read_write_ne mem a b _ (fun e => hb (by simp [e]))
    · exact Memory.read_write_same _ _ _
  · rw [List.concat_eq_append] at hl
    subst hl
    have h0 : Seg mem s.head (k ++ q :: a :: l2) none := by
      have : k ++ q :: a :: l2 = (k ++ [q]) ++ a :: l2 := by simp
      rw [this]; exact h
    have hnd0 : (k ++ q :: a :: l2).Nodup := Seg_nodup mem _ _ h0
    obtain ⟨r, hk, hq⟩ := (Seg_append _ _ _ _ _).1 h0
    obtain ⟨hr, pm, hpm, ha⟩ := (Seg_cons _ _ _ _ _).1 hq
    obtain ⟨hpn, m, hm, hs⟩ := (Seg_cons _ _ _ _ _).1 ha
    subst hr
    have hqa : q ≠ a := by
      intro e; subst e
      have := (List.nodup_append.1 hnd0).2.1
      simp at this
    have hqk : q ∉ k := by
      intro hq1
      exact (List.nodup_append.1 hnd0).2.2 hq1 (List.mem_cons_self q _)
    have hak : a ∉ k := by
      intro ha1
      exact (List.nodup_append.1 hnd0).2.2 ha1 (by simp)
    have hq2 : q ∉ l2 := by
      have := (List.nodup_append.1 hnd0).2.1
      simp at this
      exact this.1.2
    have ha2 : a ∉ l2 := by
      have := (List.nodup_append.1 hnd0).2.1
      simp at this
      exact this.2.1
    have hra : (mem.write q (pm.set_next m.next)).read a = some m := by
      rw [Memory.read_write_ne mem q a _ (Ne.symm hqa)]; exact hm
    refine ⟨(mem.write q (pm.set_next m.next)).write a m.removed, s, m, ?_, ?_, ?_, ?_, hm, ?_⟩
    · simp [CoAPMessageStore.remove_previous, last_or_concat, hm, hpm, CoAPMessage.get_next, hra]
    · have : k ++ [q] ++ l2 = k ++ q :: l2 := by simp
      rw [CoAPMessageStore.linked, this]
      refine (Seg_append _ _ _ _ _).2 ⟨some q, ?_, ?_⟩
      · refine Seg_frame mem _ k _ _ ?_ hk
        intro b hb
        rw [Memory.read_write_ne _ a b _ (fun e => hak (e ▸ hb)),
          Memory.read_write_ne _ q b _ (fun e => hqk (e ▸ hb))]
      · refine (Seg_cons _ _ _ _ _).2 ⟨rfl, pm.set_next m.next, ?_, ?_⟩
        · rw [Memory.read_write_ne _ a q _ hqa, Memory.read_write_same]
        · refine Seg_frame mem _ l2 _ _ ?_ hs
          intro b hb
          rw [Memory.read_write_ne _ a b _ (fun e => ha2 (e ▸ hb)),
            Memory.read_write_ne _ q b _ (fun e => hq2 (e ▸ hb))]
    · exact Memory.same_but_links_trans _ _ _
        (Memory.same_but_links_write mem q pm (pm.set_next m.next) hpm rfl)
        (Memory.same_but_links_write _ a m m.removed hra rfl)
    · intro b hb
      have hba : b ≠ a := fun e => hb (by simp [e])
      have hbq : b ≠ q := fun e => hb (by simp [e])
      rw [Memory.read_write_ne _ a b _ hba, Memory.read_write_ne _ q b _ hbq]
    · exact Memory.read_write_same _ _ _

theorem remove_spec (mem : Memory) (s : CoAPMessageStore) (id : Nat) (l : List Nat)
    (h : s.linked mem l) :
    ∃ mem1 s1, s.remove mem id = some (mem1, s1, l.find? (mem.hit id)) ∧
      s1.linked mem1 (l.eraseP (mem.hit id)) ∧ mem.same_but_links mem1 ∧
      (∀ b, b ∉ l → mem1.read b = mem.read b) ∧
      (∀ a, l.find? (mem.hit id) = some a →
        ∃ m, mem.read a = some m ∧ mem1.read a = some m.removed) ∧
      (l.find? (mem.hit id) = none → mem1 = mem ∧ s1 = s) := by
  obtain ⟨prev, hf, hprev⟩ := for_id_spec mem s id l h
  rcases split_first (mem.hit id) l with hm | ⟨l1, a, l2, hl, h1, ha⟩
  · obtain ⟨e1, e2⟩ := find_miss _ _ hm
    refine ⟨mem, s, ?_, ?_, Memory.same_but_links_refl mem, fun _ _ => rfl, ?_, fun _ => ⟨rfl, rfl⟩⟩
    · rw [e1] at hf ⊢
      simp [CoAPMessageStore.remove, hf]
    · rw [e2]; exact h
    · intro a ha; rw [e1] at ha; exact absurd ha (by simp)
  · obtain ⟨e1, e2⟩ := find_hit _ _ _ _ h1 ha
    have hp := hprev l1 a l2 hl h1 ha
    subst hl
    obtain ⟨mem1, s1, m, hr, hl1, hs, hfr, hma, hma1⟩ := remove_previous_spec mem s l1 l2 a h
    refine ⟨mem1, s1, ?_, ?_, hs, hfr, ?_, ?_⟩
    · rw [e1] at hf ⊢
      subst hp
      simp [CoAPMessageStore.remove, hf, hr]
    · rw [e2]; exact hl1
    · intro b hb
      rw [e1] at hb
      have : a = b := Option.some.inj hb
      subst this
      exact ⟨m, hma, hma1⟩
    · intro hn; rw [e1] at hn; exact absurd hn (by simp)

/-! ## `add` and `send` -/

theorem find_erase (P Q : Nat → Bool) (l : List Nat)
    (hPQ : ∀ a ∈ l, P a = true → Q a = false) : (l.eraseP P).find? Q = l.find? Q := by
  rcases split_first P l with hm | ⟨l1, a, l2, hl, h1, ha⟩
  · rw [(find_miss P l hm).2]
  · subst hl
    rw [(find_hit P l1 l2 a h1 ha).2]
    have hq : Q a = false := hPQ a (by simp) ha
    simp [List.find?_append, List.find?_cons, hq]

theorem find_congr (P Q : Nat → Bool) (l : List Nat) (h : ∀ a ∈ l, P a = Q a) :
    l.find? P = l.find? Q := by
  induction l with
  | nil => rfl
  | cons x l ih =>
    simp only [List.find?_cons, h x (List.mem_cons_self x l)]
    rw [ih (fun a ha => h a (List.mem_cons_of_mem x ha))]

theorem hit_ne (mem : Memory) (i j a : Nat) (hij : j ≠ i) (h : mem.hit i a = true) :
    mem.hit j a = false := by
  simp only [Memory.hit] at h ⊢
  cases hm : mem.read a with
  | none => rfl
  | some m =>
    rw [hm] at h
    simp only [CoAPMessage.matches, decide_eq_true_eq] at h
    simp [CoAPMessage.matches, h, Ne.symm hij]

theorem add_unlinked (mem : Memory) (s : CoAPMessageStore) (l : List Nat) (p : Nat)
    (m0 : CoAPMessage) (h : s.linked mem l) (hp : p ∉ l) (hm0 : mem.read p = some m0)
    (hnext : m0.next = none) :
    ∃ mem2 s2 s1, s.add mem p = some (mem2, s2, ProtocolError.NO_ERROR) ∧
      s2.head = some p ∧
      s2.linked mem2 (p :: l.eraseP (mem.hit m0.id)) ∧
      mem2.read p = some (m0.set_next s1) ∧
      mem.same_but_links mem2 ∧
      (∀ b, b ∉ l → b ≠ p → mem2.read b = mem.read b) := by
  obtain ⟨mem1, s1, hr, hl1, hs, hfr, _, _⟩ := remove_spec mem s m0.id l h
  have hp1 : mem1.read p = some m0 := by rw [hfr p hp]; exact hm0
  have hpe : p ∉ l.eraseP (mem.hit m0.id) := fun hmem => hp (List.mem_of_mem_eraseP hmem)
  refine ⟨mem1.write p (m0.set_next s1.head), { s1 with head := some p }, s1.head,
    ?_, rfl, ?_, ?_, ?_, ?_⟩
  · simp [CoAPMessageStore.add, CoAPMessageStore.remove_message, hm0, CoAPMessage.get_id, hr,
      hp1, CoAPMessage.get_next, hnext]
  · refine (Seg_cons _ _ _ _ _).2 ⟨rfl, m0.set_next s1.head, Memory.read_write_same _ _ _, ?_⟩
    refine Seg_frame mem1 _ _ _ _ ?_ hl1
    intro b hb
    exact Memory.read_write_ne _ p b _ (fun e => hpe (e ▸ hb))
  · exact Memory.read_write_same _ _ _
  · exact Memory.same_but_links_trans _ _ _ hs
      (Memory.same_but_links_write mem1 p m0 (m0.set_next s1.head) hp1 rfl)
  · intro b hb hbp
    rw [Memory.read_write_ne _ p b _ hbp]
    exact hfr b hb

theorem eraseP_congr (P Q : Nat → Bool) (l : List Nat) (h : ∀ a ∈ l, P a = Q a) :
    l.eraseP P = l.eraseP Q := by
  induction l with
  | nil => rfl
  | cons x l ih =>
    simp only [List.eraseP_cons, h x (List.mem_cons_self x l)]
    rw [ih (fun a ha => h a (List.mem_cons_of_mem x ha))]

theorem create_spec (mem : Memory) (p : Nat) (msg : Message) :
    ∃ mem1, CoAPMessage.create mem (some p) msg = (mem1, some p) ∧
      mem1.read p = some ((CoAPMessage.init msg.get_id).set_data msg.buf msg.length).1 ∧
      ∀ b, b ≠ p → mem1.read b = mem.read b := by
  refine ⟨_, rfl, Memory.read_write_same _ _ _, ?_⟩
  intro b hb
  rw [Memory.read_write_ne _ p b _ hb]
  exact Memory.read_construct_ne mem p b _ hb

theorem set_data_fields (m : CoAPMessage) (data : List Nat) (n : Nat) :
    (m.set_data data n).1.next = m.next ∧ (m.set_data data n).1.id = m.id ∧
    (m.set_data data n).1.transmit_count = m.transmit_count ∧
    (m.set_data data n).1.timeout = m.timeout := by
  unfold CoAPMessage.set_data
  split <;> exact ⟨rfl, rfl, rfl, rfl⟩

theorem set_data_ok (m : CoAPMessage) (data : List Nat) (n : Nat) (h : n ≤ 1500) :
    (m.set_data data n).1.data = data.take n ∧ (m.set_data data n).1.data_len = n % 65536 ∧
    (m.set_data data n).2 = ProtocolError.NO_ERROR := by
  unfold CoAPMessage.set_data
  rw [if_neg (by omega)]
  exact ⟨rfl, rfl, rfl⟩

theorem send_confirmable (CoAP_type : List Nat → CoAPType) (mem : Memory)
    (s : CoAPMessageStore) (l : List Nat) (msg : Message) (p time : Nat)
    (hl : s.linked mem l) (hfresh : mem.read p = none) (hid : msg.has_id = true)
    (hcon : CoAP_type msg.buf = CoAPType.CON) :
    ∃ mem2 s2 nxt,
      s.send CoAP_type (some p) mem msg time = some (mem2, s2, ProtocolError.NO_ERROR) ∧
      s2.head = some p ∧
      s2.linked mem2 (p :: l.eraseP (mem.hit msg.get_id)) ∧
      mem2.read p = some
        (((CoAPMessage.init msg.get_id).set_data msg.buf msg.length).1.set_next nxt) ∧
      (∀ b, b ≠ p →
        (mem2.read b).map CoAPMessage.removed = (mem.read b).map CoAPMessage.removed) ∧
      (∀ b, b ∉ l → b ≠ p → mem2.read b = mem.read b) := by
  obtain ⟨mem1, hc, hp1, hfr1⟩ := create_spec mem p msg
  have hpl : p ∉ l := by
    intro hp
    obtain ⟨m, hm⟩ := Seg_live mem l _ _ hl p hp
    rw [hfresh] at hm
    exact absurd hm (by simp)
  have hl1 : s.linked mem1 l :=
    Seg_frame mem mem1 l _ _ (fun b hb => hfr1 b (fun e => hpl (e ▸ hb))) hl
  have hf := set_data_fields (CoAPMessage.init msg.get_id) msg.buf msg.length
  obtain ⟨mem2, s2, nxt, ha, hh, hl2, hp2, hs, hfr2⟩ :=
    add_unlinked mem1 s l p _ hl1 hpl hp1 hf.1
  have hidm : ((CoAPMessage.init msg.get_id).set_data msg.buf msg.length).1.id
      = msg.get_id := by
    rw [hf.2.1]
    exact Nat.mod_eq_of_lt (get_id_lt msg)
  rw [hidm] at hl2
  have he : l.eraseP (mem1.hit msg.get_id) = l.eraseP (mem.hit msg.get_id) := by
    apply eraseP_congr
    intro b hb
    simp only [Memory.hit, hfr1 b (fun e => hpl (e ▸ hb))]
  rw [he] at hl2
  refine ⟨mem2, s2, nxt, ?_, hh, hl2, hp2, ?_, ?_⟩
  · simp [CoAPMessageStore.send, hid, CoAPMessageStore.is_confirmable, hcon, hc, ha]
  · intro b hb
    rw [hs.1 b, hfr1 b hb]
  · intro b hb hbp
    rw [hfr2 b hb hbp, hfr1 b hbp]

theorem process_sweeps_id (times : List Nat) (mem : Memory) (s : CoAPMessageStore) :
    s.process_sweeps mem times = (mem, s) := by
  induction times with
  | nil => rfl
  | cons t ts ih => simpa [CoAPMessageStore.process_sweeps, CoAPMessageStore.process] using ih

theorem head_lookup (mem : Memory) (s : CoAPMessageStore) (l : List Nat) (p i : Nat)
    (e : CoAPMessage) (hl : s.linked mem (p :: l)) (hp : mem.read p = some e) (he : e.id = i) :
    s.from_id mem i = some (some p) := by
  rw [from_id_spec mem s i _ hl]
  simp [List.find?_cons, Memory.hit, hp, CoAPMessage.matches, he]

/-! ## `delete`, `clear_message`, `receive` and `clear` -/

theorem Memory.read_delete_same (mem : Memory) (p : Nat) :
    (mem.delete (some p)).read p = none := by
  simp only [Memory.read, Memory.delete, List.getD_eq_getElem?_getD]
  by_cases hp : p < mem.cells.length
  · rw [List.getElem?_set_self (by simpa using hp)]; rfl
  · rw [List.getElem?_eq_none (by simp; omega)]; rfl

theorem Memory.read_delete_ne (mem : Memory) (p q : Nat) (h : q ≠ p) :
    (mem.delete (some p)).read q = mem.read q := by
  simp only [Memory.read, Memory.delete, List.getD_eq_getElem?_getD]
  rw [List.getElem?_set_ne (Ne.symm h)]

theorem Memory.delete_length (mem : Memory) (r : Option Nat) :
    (mem.delete r).cells.length = mem.cells.length := by
  cases r with
  | none => rfl
  | some p => simp [Memory.delete]

theorem erase_first_not_mem (P : Nat → Bool) (l : List Nat) (a : Nat) (hnd : l.Nodup)
    (h : l.find? P = some a) : a ∉ l.eraseP P ∧ a ∈ l ∧ P a = true ∧
      ∀ b ∈ l, b ≠ a → b ∈ l.eraseP P := by
  rcases split_first P l with hm | ⟨l1, x, l2, hl, h1, hx⟩
  · rw [(find_miss P l hm).1] at h
    exact absurd h (by simp)
  · subst hl
    obtain ⟨e1, e2⟩ := find_hit P l1 l2 x h1 hx
    rw [e1] at h
    have hxa : x = a := Option.some.inj h
    subst hxa
    rw [e2]
    have hd := List.nodup_append.1 hnd
    refine ⟨?_, by simp, hx, ?_⟩
    · intro hmem
      rcases List.mem_append.1 hmem with h3 | h3
      · exact hd.2.2 h3 (List.mem_cons_self x l2)
      · exact (List.nodup_cons.1 hd.2.1).1 h3
    · intro b hb hne
      rcases List.mem_append.1 hb with h3 | h3
      · exact List.mem_append.2 (Or.inl h3)
      · rcases List.mem_cons.1 h3 with h4 | h4
        · exact absurd h4 hne
        · exact List.mem_append.2 (Or.inr h4)

theorem clear_message_spec (mem : Memory) (s : CoAPMessageStore) (id : Nat) (l : List Nat)
    (h : s.linked mem l) :
    ∃ mem1 s1, s.clear_message mem id = some (mem1, s1) ∧
      s1.linked mem1 (l.eraseP (mem.hit id)) ∧
      (∀ b ∈ l.eraseP (mem.hit id),
        (mem1.read b).map CoAPMessage.removed = (mem.read b).map CoAPMessage.removed) ∧
      (∀ b, b ∉ l → mem1.read b = mem.read b) ∧
      (∀ a, l.find? (mem.hit id) = some a → mem1.read a = none) ∧
      (l.find? (mem.hit id) = none → mem1 = mem ∧ s1 = s) ∧
      mem1.cells.length = mem.cells.length := by
  obtain ⟨mem1, s1, hr, hl1, hs, hfr, _, hnone⟩ := remove_spec mem s id l h
  have hnd := Seg_nodup mem l _ h
  refine ⟨mem1.delete (l.find? (mem.hit id)), s1, ?_, ?_, ?_, ?_, ?_, ?_, ?_⟩
  · simp [CoAPMessageStore.clear_message, hr]
  · cases hf : l.find? (mem.hit id) with
    | none => exact hl1
    | some a =>
      refine Seg_frame mem1 _ _ _ _ ?_ hl1
      intro b hb
      exact Memory.read_delete_ne _ a b (fun e => (erase_first_not_mem _ l a hnd hf).1 (e ▸ hb))
  · intro b hb
    cases hf : l.find? (mem.hit id) with
    | none => exact hs.1 b
    | some a =>
      rw [Memory.read_delete_ne _ a b (fun e => (erase_first_not_mem _ l a hnd hf).1 (e ▸ hb))]
      exact hs.1 b
  · intro b hb
    cases hf : l.find? (mem.hit id) with
    | none => exact hfr b hb
    | some a =>
      rw [Memory.read_delete_ne _ a b (fun e => hb (e ▸ (erase_first_not_mem _ l a hnd hf).2.1))]
      exact hfr b hb
  · intro a ha
    rw [ha]
    exact Memory.read_delete_same _ _
  · intro hn
    rw [hn]
    exact hnone hn
  · rw [Memory.delete_length]
    exact hs.2.2

theorem receive_ack (CoAP_type : List Nat → CoAPType) (mem : Memory) (s : CoAPMessageStore)
    (msg : Message)
    (ht : msg.get_type CoAP_type = CoAPType.ACK ∨ msg.get_type CoAP_type = CoAPType.RESET)
    (mem1 : Memory) (s1 : CoAPMessageStore)
    (h : s.clear_message mem msg.decode_id.1.get_id = some (mem1, s1)) :
    s.receive CoAP_type mem msg = some (mem1, s1, msg.decode_id.1, ProtocolError.NO_ERROR) := by
  simp [CoAPMessageStore.receive, ht, h]

theorem clear_loop_spec (l : List Nat) :
    ∀ (fuel : Nat) (mem : Memory) (s : CoAPMessageStore), s.linked mem l → l.length < fuel →
      ∃ mem1, CoAPMessageStore.clear_loop fuel mem s = some (mem1, { head := none }) ∧
        (∀ a ∈ l, mem1.read a = none) ∧ (∀ b, b ∉ l → mem1.read b = mem.read b) ∧
        mem1.cells.length = mem.cells.length := by
  induction l with
  | nil =>
    intro fuel mem s h hf
    have hh : s.head = none := h
    cases fuel with
    | zero => simp at hf
    | succ fuel =>
      refine ⟨mem, ?_, by simp, fun _ _ => rfl, rfl⟩
      cases s with
      | mk head =>
        simp only at hh
        subst hh
        rfl
  | cons a l ih =>
    intro fuel mem s h hf
    obtain ⟨hh, m, hm, _⟩ := (Seg_cons _ _ _ _ _).1 h
    cases fuel with
    | zero => simp at hf
    | succ fuel =>
      have hhit : mem.hit m.get_id a = true := by
        simp [Memory.hit, hm, CoAPMessage.matches, CoAPMessage.get_id]
      have hfind : (a :: l).find? (mem.hit m.get_id) = some a := by
        simp [List.find?_cons, hhit]
      have herase : (a :: l).eraseP (mem.hit m.get_id) = l := by
        simp [List.eraseP_cons, hhit]
      obtain ⟨mem1, s1, hc, hl1, _, hfr, hgone, _, hlen⟩ :=
        clear_message_spec mem s m.get_id (a :: l) h
      rw [herase] at hl1
      obtain ⟨mem2, h2, hz, hfr2, hlen2⟩ := ih fuel mem1 s1 hl1 (by simpa using hf)
      have hnd := Seg_nodup mem _ _ h
      have hal : a ∉ l := (List.nodup_cons.1 hnd).1
      refine ⟨mem2, ?_, ?_, ?_, hlen2.trans hlen⟩
      · simp only [CoAPMessageStore.clear_message] at hc
        simp only [CoAPMessageStore.clear_loop, hh, hm, Option.bind_eq_bind, Option.some_bind]
        cases hrm : s.remove mem m.get_id with
        | none => rw [hrm] at hc; simp at hc
        | some t =>
          rw [hrm] at hc
          simp only [Option.bind_eq_bind, Option.some_bind, Option.pure_def, Option.some.injEq,
            Prod.mk.injEq] at hc
          show (some t).bind (fun t => CoAPMessageStore.clear_loop fuel (t.1.delete t.2.2) t.2.1)
            = some (mem2, { head := none })
          rw [Option.some_bind, hc.1, hc.2]
          exact h2
      · intro b hb
        rcases List.mem_cons.1 hb with rfl | hb
        · rw [hfr2 b hal]
          exact hgone b hfind
        · exact hz b hb
      · intro b hb
        have hbl : b ∉ l := fun e => hb (List.mem_cons_of_mem a e)
        rw [hfr2 b hbl]
        exact hfr b hb

theorem clear_spec (mem : Memory) (s : CoAPMessageStore) (l : List Nat) (h : s.linked mem l) :
    ∃ mem1, s.clear mem = some (mem1, { head := none }) ∧
      (∀ a ∈ l, mem1.read a = none) ∧ (∀ b, b ∉ l → mem1.read b = mem.read b) ∧
      mem1.cells.length = mem.cells.length :=
  clear_loop_spec l _ mem s h (Nat.lt_succ_of_le (Seg_length_le mem l _ h))

theorem from_id_empty (mem : Memory) (id : Nat) :
    CoAPMessageStore.from_id mem { head := none } id = some none :=
  from_id_spec mem { head := none } id [] rfl

theorem unique_no_other (mem : Memory) (l1 l2 : List Nat) (a i : Nat)
    (hu : unique_ids mem (l1 ++ a :: l2)) (ha : mem.hit i a = true) :
    (∀ b ∈ l1, mem.hit i b = false) ∧ (∀ b ∈ l2, mem.hit i b = false) := by
  have h := hu i
  rw [List.countP_append, List.countP_cons, if_pos ha] at h
  have h1 : l1.countP (mem.hit i) = 0 := by omega
  have h2 : l2.countP (mem.hit i) = 0 := by omega
  rw [List.countP_eq_zero] at h1 h2
  exact ⟨fun b hb => by simpa using h1 b hb, fun b hb => by simpa using h2 b hb⟩

theorem eraseP_eq_filter (mem : Memory) (l : List Nat) (i : Nat) (hu : unique_ids mem l) :
    l.eraseP (mem.hit i) = l.filter (fun a => !mem.hit i a) := by
  rcases split_first (mem.hit i) l with hm | ⟨l1, a, l2, hl, h1, ha⟩
  · rw [(find_miss _ _ hm).2]
    symm
    rw [List.filter_eq_self]
    intro b hb
    simp [hm b hb]
  · subst hl
    rw [(find_hit _ _ _ _ h1 ha).2]
    obtain ⟨_, h2⟩ := unique_no_other mem l1 l2 a i hu ha
    have f1 : l1.filter (fun a => !mem.hit i a) = l1 := by
      rw [List.filter_eq_self]; intro b hb; simp [h1 b hb]
    have f2 : l2.filter (fun a => !mem.hit i a) = l2 := by
      rw [List.filter_eq_self]; intro b hb; simp [h2 b hb]
    rw [List.filter_append, List.filter_cons, f1, f2]
    simp [ha]

theorem get_id_set_id (m : Message) (x : Nat) : (m.set_id x).get_id = x % 65536 := by
  simp only [Message.get_id, Message.set_id]
  omega

theorem decode_id_long (m : Message) (h : 4 ≤ m.length) :
    m.decode_id = (m.set_id (CoAP_message_id m.buf), true) := by
  simp [Message.decode_id, h]

theorem decode_id_short (m : Message) (h : m.length < 4) : m.decode_id = (m, false) := by
  have : ¬ (4 ≤ m.length) := by omega
  simp [Message.decode_id, this]

theorem store_send_total (CoAP_type : List Nat → CoAPType) (memory : Option Nat)
    (mem : Memory) (s : CoAPMessageStore) (l : List Nat) (msg : Message) (time : Nat)
    (hl : s.linked mem l) (hfresh : ∀ p, memory = some p → mem.read p = none) :
    ∃ mem1 s1 e, s.send CoAP_type memory mem msg time = some (mem1, s1, e) := by
  by_cases hid : msg.has_id = true
  · by_cases hcon : CoAP_type msg.buf = CoAPType.CON
    · cases memory with
      | none =>
        exact ⟨mem, s, ProtocolError.INSUFFICIENT_STORAGE, by
          simp [CoAPMessageStore.send, hid, CoAPMessageStore.is_confirmable, hcon,
            CoAPMessage.create]⟩
      | some p =>
        obtain ⟨mem2, s2, _, hs, _⟩ :=
          send_confirmable CoAP_type mem s l msg p time hl (hfresh p rfl) hid hcon
        exact ⟨mem2, s2, _, hs⟩
    · exact ⟨mem, s, ProtocolError.NO_ERROR, by
        simp [CoAPMessageStore.send, hid, CoAPMessageStore.is_confirmable, hcon]⟩
  · have hid0 : msg.has_id = false := by simpa using hid
    exact ⟨mem, s, ProtocolError.MISSING_MESSAGE_ID, by simp [CoAPMessageStore.send, hid0]⟩

theorem unique_ids_singleton (mem : Memory) (a : Nat) : unique_ids mem [a] := by
  intro id
  rw [List.countP_cons, List.countP_nil]
  split <;> omega

/-! ## `add` in general, and the invariant of the store -/

theorem set_next_of_removed (m : CoAPMessage) (n : Option Nat) :
    m.removed.set_next n = m.set_next n := rfl

/-- `add` of an entry that is the first one of its id in this list: it is
unlinked and linked again at the head. -/
theorem add_relink (mem : Memory) (s : CoAPMessageStore) (l : List Nat) (p : Nat)
    (m0 : CoAPMessage) (h : s.linked mem l) (hm0 : mem.read p = some m0)
    (hfirst : l.find? (mem.hit m0.get_id) = some p) :
    ∃ mem2 s2, s.add mem p = some (mem2, s2, ProtocolError.NO_ERROR) ∧
      s2.linked mem2 (p :: l.eraseP (mem.hit m0.get_id)) ∧
      mem.same_but_links mem2 ∧
      (∀ b, b ∉ l → mem2.read b = mem.read b) := by
  obtain ⟨mem1, s1, hr, hl1, hs, hfr, hrem, _⟩ := remove_spec mem s m0.get_id l h
  have hnd := Seg_nodup mem l _ h
  obtain ⟨hpe, hpl, _, _⟩ := erase_first_not_mem _ l p hnd hfirst
  obtain ⟨m, hm, hm1⟩ := hrem p hfirst
  rw [hm0] at hm
  have hmm : m0 = m := Option.some.inj hm
  subst hmm
  rw [hfirst] at hr
  refine ⟨mem1.write p (m0.removed.set_next s1.head), { s1 with head := some p }, ?_, ?_, ?_, ?_⟩
  · simp [CoAPMessageStore.add, CoAPMessageStore.remove_message, hm0, hr, hm1,
      CoAPMessage.get_next, CoAPMessage.removed]
  · refine (Seg_cons _ _ _ _ _).2 ⟨rfl, _, Memory.read_write_same _ _ _, ?_⟩
    refine Seg_frame mem1 _ _ _ _ ?_ hl1
    intro b hb
    exact Memory.read_write_ne _ p b _ (fun e => hpe (e ▸ hb))
  · exact Memory.same_but_links_trans _ _ _ hs
      (Memory.same_but_links_write mem1 p m0.removed _ hm1 rfl)
  · intro b hb
    have hbp : b ≠ p := fun e => hb (e ▸ hpl)
    rw [Memory.read_write_ne _ p b _ hbp]
    exact hfr b hb

/-- `add` of an entry that is not in this list and has a non-null `next` link:
`INVALID_STATE`, after `remove` has run for the id of the entry. -/
theorem add_invalid (mem : Memory) (s : CoAPMessageStore) (l : List Nat) (p : Nat)
    (m0 : CoAPMessage) (h : s.linked mem l) (hp : p ∉ l) (hm0 : mem.read p = some m0)
    (hnext : m0.next ≠ none) :
    ∃ mem1 s1, s.add mem p = some (mem1, s1, ProtocolError.INVALID_STATE) ∧
      s.remove mem m0.get_id = some (mem1, s1, l.find? (mem.hit m0.get_id)) ∧
      s1.linked mem1 (l.eraseP (mem.hit m0.get_id)) ∧
      mem.same_but_links mem1 ∧
      (∀ b, b ∉ l → mem1.read b = mem.read b) ∧
      ((∀ a ∈ l, mem.hit m0.get_id a = false) → mem1 = mem ∧ s1 = s) := by
  obtain ⟨mem1, s1, hr, hl1, hs, hfr, _, hnone⟩ := remove_spec mem s m0.get_id l h
  have hp1 : mem1.read p = some m0 := by rw [hfr p hp]; exact hm0
  have hsome : m0.next.isSome = true := by
    cases hn : m0.next with
    | none => exact absurd hn hnext
    | some x => rfl
  refine ⟨mem1, s1, ?_, hr, hl1, hs, hfr, fun hm => hnone (find_miss _ _ hm).1⟩
  simp [CoAPMessageStore.add, CoAPMessageStore.remove_message, hm0, hr, hp1,
    CoAPMessage.get_next, hsome]

theorem eraseP_first_eq_erase (P : Nat → Bool) (l : List Nat) (p : Nat) (hnd : l.Nodup)
    (h : l.find? P = some p) : l.eraseP P = l.erase p := by
  rcases split_first P l with hm | ⟨l1, x, l2, hl, h1, hx⟩
  · rw [(find_miss P l hm).1] at h
    exact absurd h (by simp)
  · subst hl
    obtain ⟨e1, e2⟩ := find_hit P l1 l2 x h1 hx
    rw [e1] at h
    have hxp : x = p := Option.some.inj h
    subst hxp
    rw [e2]
    have hx1 : x ∉ l1 := fun hmem => (List.nodup_append.1 hnd).2.2 hmem (List.mem_cons_self x l2)
    rw [List.erase_append_right _ hx1, List.erase_cons_head]

/-- Counterexample to C1 as stated: at `now = 0`, `deadline = 0x80000000` the
function returns true although the wrapped difference `(now - deadline) mod 2^32`
is `0x80000000`, whose top bit is set; and shifting both ticks by `0x80000000`
flips the result to false. -/
theorem time_has_passed_antipodal_counterexample :
    time_has_passed 0 0x80000000 = true ∧
    ¬ ((0 + 2 ^ 32 - 0x80000000) % 2 ^ 32 ≤ 0x7FFFFFFF) ∧
    time_has_passed ((0 + 0x80000000) % 2 ^ 32) ((0x80000000 + 0x80000000) % 2 ^ 32) = false := by
  decide

/-- Claim C1, amended: for 32-bit ticks, `time_has_passed now deadline` is true
exactly when the wrapped difference `(now - deadline) mod 2^32` is at most
`0x7FFFFFFF`, or `now < deadline` and the wrapped difference is exactly
`0x80000000`; and whenever the wrapped difference is not `0x80000000`, the
result is the same after shifting both ticks by any `k` modulo `2^32`. -/
theorem time_has_passed_circular (now deadline : Nat) (hn : now < 2 ^ 32)
    (hd : deadline < 2 ^ 32) :
    (time_has_passed now deadline = true ↔
      ((now + 2 ^ 32 - deadline) % 2 ^ 32 ≤ 0x7FFFFFFF ∨
        (now < deadline ∧ (now + 2 ^ 32 - deadline) % 2 ^ 32 = 0x80000000))) ∧
    ∀ k : Nat, (now + 2 ^ 32 - deadline) % 2 ^ 32 ≠ 0x80000000 →
      time_has_passed ((now + k) % 2 ^ 32) ((deadline + k) % 2 ^ 32)
        = time_has_passed now deadline := by
  constructor
  · rw [thp_iff]; omega
  · intro k hk
    rw [Bool.eq_iff_iff, thp_iff, thp_iff]
    omega

/-- Witness of C1, amended: the ticks `3` and `0xFFFFFFFE`, shifted by 7. -/
theorem time_has_passed_circular_witness :
    (3 < 2 ^ 32 ∧ 0xFFFFFFFE < 2 ^ 32 ∧ (3 + 2 ^ 32 - 0xFFFFFFFE) % 2 ^ 32 ≠ 0x80000000) ∧
    time_has_passed ((3 + 7) % 2 ^ 32) ((0xFFFFFFFE + 7) % 2 ^ 32)
      = time_has_passed 3 0xFFFFFFFE :=
  ⟨by decide,
    (time_has_passed_circular 3 0xFFFFFFFE (by decide) (by decide)).2 7 (by decide)⟩

/-- Claim C2: for 32-bit ticks `a ≠ b` exactly one of `time_has_passed a b` and
`time_has_passed b a` is true; `time_has_passed t t` is true; and
`time_has_passed 0x10 0xFFFFFFF0` is true while `time_has_passed 0xFFFFFFF0 0x10`
is false. -/
theorem time_has_passed_antisymmetric (a b : Nat) :
    a < 2 ^ 32 → b < 2 ^ 32 →
    (a ≠ b → (time_has_passed a b = true ∧ time_has_passed b a = false) ∨
             (time_has_passed a b = false ∧ time_has_passed b a = true)) ∧
    time_has_passed a a = true ∧
    time_has_passed 0x00000010 0xFFFFFFF0 = true ∧
    time_has_passed 0xFFFFFFF0 0x00000010 = false := by
  intro _ _
  refine ⟨?_, ?_, by decide, by decide⟩
  · intro hab
    simp only [← Bool.not_eq_true, thp_iff]
    omega
  · rw [thp_iff]; omega

/-- Witness of C2: the antipodal ticks `0` and `0x80000000`. -/
theorem time_has_passed_antisymmetric_witness :
    (0 < 2 ^ 32 ∧ 0x80000000 < 2 ^ 32 ∧ 0 ≠ 0x80000000) ∧
    ((time_has_passed 0 0x80000000 = true ∧ time_has_passed 0x80000000 0 = false) ∨
      (time_has_passed 0 0x80000000 = false ∧ time_has_passed 0x80000000 0 = true)) :=
  ⟨by decide,
    (time_has_passed_antisymmetric 0 0x80000000 (by decide) (by decide)).1 (by decide)⟩

/-- Counterexample to C4 as stated: on a new message the 256th successive call
of `prepare_retransmit` returns true, although `256 > 4`: the 8-bit
`transmit_count` has wrapped to 0. -/
theorem prepare_retransmit_call_256_counterexample :
    ((prepare_retransmit_calls (CoAPMessage.init 5) (List.replicate 256 (0, 0))).2).getD
        (256 - 1) false = true ∧
    ¬ (256 ≤ CoAPMessage.MAX_RETRANSMIT) := by
  refine ⟨?_, by decide⟩
  rw [prepare_retransmit_calls_flag _ _ _ (by rw [List.length_replicate]; omega)]
  decide

/-- Claim C4, amended: on a newly created message, whatever the ticks and random
values of the calls, the `n`-th successive call of `prepare_retransmit`
returns true exactly when `n mod 256 ≤ 4`; so for `1 ≤ n ≤ 255` it returns true
exactly when `n ≤ 4`: calls 1 to 4 return true, the 5th is the first to return
false, and calls 5 to 255 return false. -/
theorem prepare_retransmit_nth_call (id_ : Nat) (calls : List (Nat × Nat)) (n : Nat)
    (h1 : 1 ≤ n) (hn : n ≤ calls.length) :
    (((prepare_retransmit_calls (CoAPMessage.init id_) calls).2).getD (n - 1) false = true
      ↔ n % 256 ≤ CoAPMessage.MAX_RETRANSMIT) ∧
    (n ≤ 255 →
      (((prepare_retransmit_calls (CoAPMessage.init id_) calls).2).getD (n - 1) false = true
        ↔ n ≤ CoAPMessage.MAX_RETRANSMIT)) := by
  rw [prepare_retransmit_calls_flag _ _ _ (by omega)]
  simp only [CoAPMessage.init, CoAPMessage.MAX_RETRANSMIT, decide_eq_true_eq]
  constructor
  · have : 0 + (n - 1) + 1 = n := by omega
    rw [this]
  · intro h; omega

/-- Witness of C4, amended: the fifth of six calls returns false. -/
theorem prepare_retransmit_nth_call_witness :
    (1 ≤ 5 ∧ 5 ≤ (List.replicate 6 (1000, 77)).length) ∧
    ¬ (((prepare_retransmit_calls (CoAPMessage.init 5) (List.replicate 6 (1000, 77))).2).getD
        (5 - 1) false = true) :=
  ⟨by decide, fun h =>
    absurd ((prepare_retransmit_nth_call 5 (List.replicate 6 (1000, 77)) 5 (by decide)
      (by decide)).1.1 h) (by decide)⟩

/-- Claim C5: for every 32-bit tick `now`, every value `r` of the random source
and every message with `transmit_count = n`, `n` in `0..4`,
`prepare_retransmit now` sets the deadline so that
`(timeout - now) mod 2^32 = 2000 * 2^n + jitter`, where `jitter` is the term
`((backoff * rand()) % 256) >> 9` of the code and `0 ≤ jitter < (2000 * 2^n) / 2`,
and raises `transmit_count` to `n + 1`. -/
theorem prepare_retransmit_deadline (m : CoAPMessage) (now r n : Nat) (hnow : now < 2 ^ 32)
    (hm : m.transmit_count = n) (hn : n ≤ 4) :
    ((m.prepare_retransmit now r).1.timeout + 2 ^ 32 - now) % 2 ^ 32
      = CoAPMessage.ACK_TIMEOUT * 2 ^ n
        + ((((CoAPMessage.ACK_TIMEOUT * 2 ^ n * r) % 2 ^ 32) % 256) >>> 9) ∧
    ((((CoAPMessage.ACK_TIMEOUT * 2 ^ n * r) % 2 ^ 32) % 256) >>> 9)
      < CoAPMessage.ACK_TIMEOUT * 2 ^ n / 2 ∧
    (m.prepare_retransmit now r).1.transmit_count = n + 1 := by
  rw [jitter_zero]
  refine ⟨?_, ?_, ?_⟩
  · subst hm
    simp only [CoAPMessage.prepare_retransmit, transmit_timeout_eq _ _ hn,
      CoAPMessage.ACK_TIMEOUT]
    interval_cases m.transmit_count <;> omega
  · have : 0 < 2 ^ n := Nat.pos_pow_of_pos _ (by decide)
    simp only [CoAPMessage.ACK_TIMEOUT]
    omega
  · rw [prepare_retransmit_count, hm]; omega

/-- Witness of C5: a new message, a tick close to the wraparound, `rand() = 12345`. -/
theorem prepare_retransmit_deadline_witness :
    (0xFFFFFF00 < 2 ^ 32 ∧ (CoAPMessage.init 5).transmit_count = 0 ∧ 0 ≤ 4) ∧
    (((CoAPMessage.init 5).prepare_retransmit 0xFFFFFF00 12345).1.timeout + 2 ^ 32
        - 0xFFFFFF00) % 2 ^ 32
      = CoAPMessage.ACK_TIMEOUT * 2 ^ 0
        + ((((CoAPMessage.ACK_TIMEOUT * 2 ^ 0 * 12345) % 2 ^ 32) % 256) >>> 9) :=
  ⟨by decide,
    (prepare_retransmit_deadline (CoAPMessage.init 5) 0xFFFFFF00 12345 0 (by decide) rfl
      (by decide)).1⟩

/-- Claim C6: on a channel constructed with seed `s`, after any sends `msgs`, let
`k` count the sends of messages without ID so far, the next one included. The
send of a message without ID then hands the transport the message with
`(s + k) mod 65536` written big-endian into header bytes 2-3 and nothing else
changed, returns what the transport returns, and leaves the counter at
`(s + k) mod 65536`, one more modulo 65536 than before; a send of a message
that carries an ID leaves the counter as it is. -/
theorem channel_sequential_ids {σ : Type} (T_send : Message → σ → ProtocolError × Message × σ)
    (s : Nat) (base : σ) (msgs : List Message) (msg : Message)
    (hid : msg.has_id = false) (hlen : 4 ≤ msg.buffer.length) :
    (∃ m1 : Message,
      (CoAPChannel.send_all T_send (CoAPChannel.create s base) msgs).send T_send msg
        = ((T_send m1 (CoAPChannel.send_all T_send (CoAPChannel.create s base) msgs).base).1,
           (T_send m1 (CoAPChannel.send_all T_send (CoAPChannel.create s base) msgs).base).2.1,
           { message_id := (s + ((msgs.filter (fun m => !m.has_id)).length + 1)) % 65536,
             base :=
              (T_send m1 (CoAPChannel.send_all T_send (CoAPChannel.create s base) msgs).base).2.2 }) ∧
      header_id m1.buffer = (s + ((msgs.filter (fun m => !m.has_id)).length + 1)) % 65536 ∧
      m1.buffer.getD 2 0 = ((s + ((msgs.filter (fun m => !m.has_id)).length + 1)) % 65536) >>> 8 ∧
      m1.buffer.getD 3 0 = ((s + ((msgs.filter (fun m => !m.has_id)).length + 1)) % 65536) &&& 0xFF ∧
      m1.buffer.length = msg.buffer.length ∧
      (∀ j, j ≠ 2 → j ≠ 3 → m1.buffer[j]? = msg.buffer[j]?) ∧
      m1.buffer_length = msg.buffer_length ∧ m1.message_length = msg.message_length ∧
      m1.id = msg.id) ∧
    (s + ((msgs.filter (fun m => !m.has_id)).length + 1)) % 65536
      = ((CoAPChannel.send_all T_send (CoAPChannel.create s base) msgs).message_id + 1) % 65536 ∧
    ∀ msg1 : Message, msg1.has_id = true →
      ((CoAPChannel.send_all T_send (CoAPChannel.create s base) msgs).send T_send msg1).2.2.message_id
        = (CoAPChannel.send_all T_send (CoAPChannel.create s base) msgs).message_id := by
  have hc := send_all_counter T_send msgs (CoAPChannel.create s base)
  generalize CoAPChannel.send_all T_send (CoAPChannel.create s base) msgs = c at hc
  simp only [CoAPChannel.create] at hc
  have hv : (s + ((msgs.filter (fun m => !m.has_id)).length + 1)) % 65536
      = (c.message_id + 1) % 65536 := by omega
  refine ⟨?_, hv, ?_⟩
  · rw [hv]
    have hb := id_bytes ((c.message_id + 1) % 65536) (Nat.mod_lt _ (by decide))
    obtain ⟨g2, g3, g4, g5⟩ := stamp_buffer msg.buffer
      ((((c.message_id + 1) % 65536) >>> 8) % 256) ((((c.message_id + 1) % 65536) &&& 0xFF) % 256) hlen
    have hs := stamp_no_id c msg hid
    refine ⟨(c.stamp msg).2, ?_, ?_, ?_, ?_, ?_, ?_, ?_, ?_, ?_⟩
    · simp only [CoAPChannel.send]
      rw [hs]
    · rw [hs]
      simp only [header_id]
      rw [g2, g3, hb.1, hb.2.1, hb.2.2]
    · rw [hs]; simp only []; rw [g2, hb.1]
    · rw [hs]; simp only []; rw [g3, hb.2.1]
    · rw [hs]; exact g4
    · rw [hs]; exact g5
    · rw [hs]
    · rw [hs]
    · rw [hs]
  · intro msg1 h
    rw [send_counter, h]; simp

/-- Witness of C6: seed `0xFFFE`, one earlier send without ID and one with ID 5,
over a transport that passes every message on untouched; the second message
without ID comes out of `send` stamped `0`, the successor of `0xFFFF`. -/
theorem channel_sequential_ids_witness :
    ((Message.create [0x40, 0x01, 9, 9] 4 4).has_id = false ∧
      4 ≤ (Message.create [0x40, 0x01, 9, 9] 4 4).buffer.length) ∧
    header_id (((CoAPChannel.send_all T_send_accept (CoAPChannel.create 0xFFFE ())
        [Message.create [0x40, 0x01, 0, 0] 4 4, msg5]).send T_send_accept
          (Message.create [0x40, 0x01, 9, 9] 4 4)).2.1).buffer = 0 := by
  obtain ⟨⟨m1, h1, h2, _⟩, _⟩ :=
    channel_sequential_ids T_send_accept 0xFFFE () [Message.create [0x40, 0x01, 0, 0] 4 4, msg5]
      (Message.create [0x40, 0x01, 9, 9] 4 4) (by decide) (by decide)
  refine ⟨by decide, ?_⟩
  rw [h1]
  exact h2

/-- Counterexample to C7 as stated: a message without ID sent through a channel
with seed 0 over a transport that does not touch it still has `has_id()`
false afterwards, while its header bytes carry the drawn ID 1. -/
theorem channel_send_leaves_id_unset_counterexample :
    (Message.create [0x40, 0x01, 0, 0] 4 4).has_id = false ∧
    ((CoAPChannel.create 0 ()).send T_send_accept (Message.create [0x40, 0x01, 0, 0] 4 4)).2.1.has_id
      = false ∧
    header_id
      ((CoAPChannel.create 0 ()).send T_send_accept (Message.create [0x40, 0x01, 0, 0] 4 4)).2.1.buffer
      = 1 := by
  decide

/-- Claim C7, amended: for a message that carries no ID, `CoAPChannel::send`
writes the value drawn from the counter into header bytes 2-3 only and hands
the message to the transport with its `id` field as it was: `has_id()` is
still false there and `get_id()` returns what it returned before; the channel
keeps the advanced counter and returns what the transport returns. -/
theorem channel_send_stamps_header_only {σ : Type}
    (T_send : Message → σ → ProtocolError × Message × σ)
    (c : CoAPChannel σ) (msg : Message)
    (hid : msg.has_id = false) (hlen : 4 ≤ msg.buffer.length) :
    header_id (c.stamp msg).2.buffer = (c.stamp msg).1.message_id ∧
    (c.stamp msg).1.message_id = (c.message_id + 1) % 65536 ∧
    (c.stamp msg).2.id = msg.id ∧
    (c.stamp msg).2.has_id = false ∧
    (c.stamp msg).2.get_id = msg.get_id ∧
    c.send T_send msg
      = ((T_send (c.stamp msg).2 c.base).1, (T_send (c.stamp msg).2 c.base).2.1,
          { message_id := (c.message_id + 1) % 65536, base := (T_send (c.stamp msg).2 c.base).2.2 }) := by
  have hb := id_bytes ((c.message_id + 1) % 65536) (Nat.mod_lt _ (by decide))
  obtain ⟨g2, g3, _, _⟩ := stamp_buffer msg.buffer
    ((((c.message_id + 1) % 65536) >>> 8) % 256) ((((c.message_id + 1) % 65536) &&& 0xFF) % 256) hlen
  refine ⟨?_, ?_, ?_, ?_, ?_, ?_⟩
  · rw [stamp_no_id c msg hid]
    simp only [header_id]
    rw [g2, g3, hb.1, hb.2.1, hb.2.2]
  · rw [stamp_no_id c msg hid]
  · rw [stamp_no_id c msg hid]
  · rw [stamp_no_id c msg hid]
    simpa [Message.has_id] using hid
  · rw [stamp_no_id c msg hid]
    rfl
  · simp only [CoAPChannel.send]
    rw [stamp_no_id c msg hid]

/-- Witness of C7, amended: seed 41 and a four-byte packet without ID. -/
theorem channel_send_stamps_header_only_witness :
    ((Message.create [0x40, 0x01, 0, 0] 4 4).has_id = false ∧
      4 ≤ (Message.create [0x40, 0x01, 0, 0] 4 4).buffer.length) ∧
    ((CoAPChannel.create 41 ()).stamp (Message.create [0x40, 0x01, 0, 0] 4 4)).2.has_id = false :=
  ⟨by decide,
    (channel_send_stamps_header_only T_send_accept (CoAPChannel.create 41 ())
      (Message.create [0x40, 0x01, 0, 0] 4 4) (by decide) (by decide)).2.2.2.1⟩

/-- Claim C8: for a message that carries the ID `i` and has at least the four
header bytes, `CoAPChannel::send` hands the transport a message with
`buf[2] = i >> 8`, `buf[3] = i & 0xFF` (so `256 * buf[2] + buf[3] = i`), every
other byte, the lengths and the message's own `id` unchanged; the counter is
unchanged and the result is the one of the transport's `send`. -/
theorem channel_send_with_id_frame {σ : Type}
    (T_send : Message → σ → ProtocolError × Message × σ)
    (c : CoAPChannel σ) (msg : Message) (i : Nat)
    (hid : msg.has_id = true) (hi : msg.get_id = i) (hlen : 4 ≤ msg.buffer.length) :
    (c.stamp msg).2.buffer.getD 2 0 = i >>> 8 ∧
    (c.stamp msg).2.buffer.getD 3 0 = i &&& 0xFF ∧
    256 * (c.stamp msg).2.buffer.getD 2 0 + (c.stamp msg).2.buffer.getD 3 0 = i ∧
    (c.stamp msg).2.buffer.length = msg.buffer.length ∧
    (∀ j, j ≠ 2 → j ≠ 3 → (c.stamp msg).2.buffer[j]? = msg.buffer[j]?) ∧
    (c.stamp msg).2.buffer_length = msg.buffer_length ∧
    (c.stamp msg).2.message_length = msg.message_length ∧
    (c.stamp msg).2.id = msg.id ∧
    (c.stamp msg).1 = c ∧
    c.send T_send msg
      = ((T_send (c.stamp msg).2 c.base).1, (T_send (c.stamp msg).2 c.base).2.1,
          { message_id := c.message_id, base := (T_send (c.stamp msg).2 c.base).2.2 }) := by
  have hb := id_bytes i (hi ▸ get_id_lt msg)
  obtain ⟨g2, g3, g4, g5⟩ := stamp_buffer msg.buffer ((i >>> 8) % 256) ((i &&& 0xFF) % 256) hlen
  have hs := stamp_has_id c msg hid
  rw [hi] at hs
  refine ⟨?_, ?_, ?_, ?_, ?_, ?_, ?_, ?_, ?_, ?_⟩
  · rw [hs]; simp only []; rw [g2, hb.1]
  · rw [hs]; simp only []; rw [g3, hb.2.1]
  · rw [hs]; simp only []; rw [g2, g3, hb.1, hb.2.1, hb.2.2]
  · rw [hs]; exact g4
  · rw [hs]; exact g5
  · rw [hs]
  · rw [hs]
  · rw [hs]
  · rw [hs]
  · simp only [CoAPChannel.send]
    rw [hs]

/-- Witness of C8: a five-byte packet carrying the ID `0x1234`. -/
theorem channel_send_with_id_frame_witness :
    (((Message.create [0x40, 0x01, 0, 0, 0xAB] 5 5).set_id 0x1234).has_id = true ∧
      ((Message.create [0x40, 0x01, 0, 0, 0xAB] 5 5).set_id 0x1234).get_id = 0x1234 ∧
      4 ≤ ((Message.create [0x40, 0x01, 0, 0, 0xAB] 5 5).set_id 0x1234).buffer.length) ∧
    256 * ((CoAPChannel.create 7 ()).stamp
        ((Message.create [0x40, 0x01, 0, 0, 0xAB] 5 5).set_id 0x1234)).2.buffer.getD 2 0
      + ((CoAPChannel.create 7 ()).stamp
        ((Message.create [0x40, 0x01, 0, 0, 0xAB] 5 5).set_id 0x1234)).2.buffer.getD 3 0
      = 0x1234 :=
  ⟨by decide,
    (channel_send_with_id_frame T_send_accept (CoAPChannel.create 7 ())
      ((Message.create [0x40, 0x01, 0, 0, 0xAB] 5 5).set_id 0x1234) 0x1234
      (by decide) (by decide) (by decide)).2.2.1⟩

/-- Claim C9: on a consistent store, with the allocation succeeding at a free
address, `CoAPMessageStore::send` returns a result, the result is
`MISSING_MESSAGE_ID` exactly when the message carries no ID (`id < 0`), and in
that case memory and store are unchanged, whatever the decoder says about the
wire type. -/
theorem store_send_missing_id (CoAP_type : List Nat → CoAPType) (mem : Memory)
    (s : CoAPMessageStore) (l : List Nat) (msg : Message) (p time : Nat)
    (hl : s.linked mem l) (hfresh : mem.read p = none) :
    ∃ mem1 s1 e, s.send CoAP_type (some p) mem msg time = some (mem1, s1, e) ∧
      (e = ProtocolError.MISSING_MESSAGE_ID ↔ msg.id < 0) ∧
      (msg.id < 0 → mem1 = mem ∧ s1 = s) := by
  by_cases hid : msg.has_id = true
  · have hpos : 0 ≤ msg.id := by simpa [Message.has_id] using hid
    by_cases hcon : CoAP_type msg.buf = CoAPType.CON
    · obtain ⟨mem2, s2, _, hs, _⟩ := send_confirmable CoAP_type mem s l msg p time hl hfresh hid hcon
      refine ⟨mem2, s2, ProtocolError.NO_ERROR, hs, ?_, fun h => absurd h (by omega)⟩
      constructor
      · intro h; exact absurd h (by decide)
      · intro h; omega
    · refine ⟨mem, s, ProtocolError.NO_ERROR, ?_, ?_, fun _ => ⟨rfl, rfl⟩⟩
      · simp [CoAPMessageStore.send, hid, CoAPMessageStore.is_confirmable, hcon]
      · constructor
        · intro h; exact absurd h (by decide)
        · intro h; omega
  · have hneg : msg.id < 0 := by
      simp only [Message.has_id, decide_eq_true_eq] at hid
      omega
    have hid0 : msg.has_id = false := by simpa using hid
    refine ⟨mem, s, ProtocolError.MISSING_MESSAGE_ID, ?_, ?_, fun _ => ⟨rfl, rfl⟩⟩
    · simp [CoAPMessageStore.send, hid0]
    · exact ⟨fun _ => hneg, fun _ => rfl⟩

/-- Witness of C9: a packet without an ID sent to the empty store. -/
theorem store_send_missing_id_witness :
    ∃ mem1 s1 e,
      CoAPMessageStore.init.send sample_type (some 0) Memory.empty
        (Message.create [0x40, 0x01, 0, 5] 4 4) 0 = some (mem1, s1, e) ∧
      (e = ProtocolError.MISSING_MESSAGE_ID ↔ (Message.create [0x40, 0x01, 0, 5] 4 4).id < 0) ∧
      ((Message.create [0x40, 0x01, 0, 5] 4 4).id < 0 →
        mem1 = Memory.empty ∧ s1 = CoAPMessageStore.init) :=
  store_send_missing_id sample_type Memory.empty CoAPMessageStore.init []
    (Message.create [0x40, 0x01, 0, 5] 4 4) 0 0 rfl rfl

/-- Claim C10: on a consistent store `l` (which may track other IDs), for a
confirmable message with assigned ID `i` and length at most 1500, with the
allocation succeeding at a free address `p`, `CoAPMessageStore::send` returns
`NO_ERROR`; afterwards `from_id(i)` returns the new entry `p`, whose id is `i`,
whose `transmit_count` is 0, whose data length is the message's length and
whose data are the message's bytes; every entry linked before under another
id is still linked, unchanged up to its `next` link, and `from_id` of every
other id returns what it returned before. -/
theorem store_send_confirmable_tracked (CoAP_type : List Nat → CoAPType) (mem : Memory)
    (s : CoAPMessageStore) (l : List Nat) (msg : Message) (p time i : Nat)
    (hl : s.linked mem l) (hfresh : mem.read p = none) (hid : msg.has_id = true)
    (hi : msg.get_id = i) (hcon : CoAP_type msg.buf = CoAPType.CON)
    (hlen : msg.length ≤ 1500) (hbuf : msg.length ≤ msg.buffer.length) :
    ∃ mem1 s1 l1,
      s.send CoAP_type (some p) mem msg time = some (mem1, s1, ProtocolError.NO_ERROR) ∧
      s1.from_id mem1 i = some (some p) ∧
      (∃ e, mem1.read p = some e ∧ e.get_id = i ∧ e.transmit_count = 0 ∧
        e.get_data_length = msg.length ∧ e.get_data = msg.buffer.take msg.length ∧
        e.get_data.length = msg.length) ∧
      s1.linked mem1 l1 ∧
      (∀ b ∈ l, ∀ m, mem.read b = some m → m.get_id ≠ i →
        b ∈ l1 ∧ ∃ m1, mem1.read b = some m1 ∧ m1.removed = m.removed) ∧
      (∀ j, j ≠ i → s1.from_id mem1 j = s.from_id mem j) := by
  obtain ⟨mem2, s2, nxt, hs, _, hl2, hp2, hmap, _⟩ :=
    send_confirmable CoAP_type mem s l msg p time hl hfresh hid hcon
  rw [hi] at hl2 hp2
  have hilt : i < 65536 := hi ▸ get_id_lt msg
  have hpl : p ∉ l := by
    intro hp
    obtain ⟨m, hm⟩ := Seg_live mem l _ _ hl p hp
    rw [hfresh] at hm
    exact absurd hm (by simp)
  have hf := set_data_fields (CoAPMessage.init i) msg.buf msg.length
  have hd := set_data_ok (CoAPMessage.init i) msg.buf msg.length hlen
  have heid : (((CoAPMessage.init i).set_data msg.buf msg.length).1.set_next nxt).id = i := by
    show ((CoAPMessage.init i).set_data msg.buf msg.length).1.id = i
    rw [hf.2.1]
    exact Nat.mod_eq_of_lt hilt
  refine ⟨mem2, s2, _, hs, head_lookup mem2 s2 _ p i _ hl2 hp2 heid, ⟨_, hp2, heid, ?_, ?_, ?_, ?_⟩,
    hl2, ?_, ?_⟩
  · exact hf.2.2.1
  · show ((CoAPMessage.init i).set_data msg.buf msg.length).1.data_len = msg.length
    rw [hd.2.1]
    exact Nat.mod_eq_of_lt (by omega)
  · exact hd.1
  · show ((CoAPMessage.init i).set_data msg.buf msg.length).1.data.length = msg.length
    rw [hd.1, List.length_take]
    exact Nat.min_eq_left hbuf
  · intro b hb m hm hne
    have hbp : b ≠ p := fun e => hpl (e ▸ hb)
    have hhit : ¬ (mem.hit i b = true) := by
      simp only [Memory.hit, hm, CoAPMessage.matches, decide_eq_true_eq]
      exact hne
    refine ⟨List.mem_cons_of_mem p ((List.mem_eraseP_of_neg hhit).2 hb), ?_⟩
    have := hmap b hbp
    rw [hm] at this
    cases h2 : mem2.read b with
    | none => rw [h2] at this; simp at this
    | some m1 =>
      rw [h2] at this
      exact ⟨m1, rfl, by simpa using this⟩
  · intro j hj
    rw [from_id_spec mem2 s2 j _ hl2, from_id_spec mem s j l hl]
    have hpj : mem2.hit j p = false := by
      simp only [Memory.hit, hp2, CoAPMessage.matches, heid]
      simpa using Ne.symm hj
    rw [List.find?_cons, hpj]
    simp only
    rw [find_congr (mem2.hit j) (mem.hit j) _ ?_, find_erase _ _ l ?_]
    · intro a _ ha
      exact hit_ne mem i j a hj ha
    · intro a ha
      have hal : a ∈ l := List.mem_of_mem_eraseP ha
      exact Memory.hit_of_removed_eq mem mem2 j a (hmap a (fun e => hpl (e ▸ hal)))

/-- Witness of C10: the confirmable packet with ID 5 sent to the empty store. -/
theorem store_send_confirmable_tracked_witness :
    ∃ mem1 s1,
      CoAPMessageStore.init.send sample_type (some 0) Memory.empty msg5 0
        = some (mem1, s1, ProtocolError.NO_ERROR) ∧
      s1.from_id mem1 5 = some (some 0) := by
  obtain ⟨mem1, s1, _, h1, h2, _⟩ :=
    store_send_confirmable_tracked sample_type Memory.empty CoAPMessageStore.init [] msg5 0 0 5
      rfl rfl rfl rfl rfl (by decide) (by decide)
  exact ⟨mem1, s1, h1, h2⟩

/-- Claim C3 on the code: after `CoAPMessageStore::send` has registered a
confirmable message with ID 5, any number of `process` sweeps at any ticks
leave memory and store as they were: `from_id(5)` still returns the entry
and its `transmit_count` is still 0. -/
theorem process_sweeps_leave_entry (CoAP_type : List Nat → CoAPType) (mem : Memory)
    (s : CoAPMessageStore) (l : List Nat) (msg : Message) (p time : Nat) (sweeps : List Nat)
    (hl : s.linked mem l) (hfresh : mem.read p = none) (hid : msg.has_id = true)
    (hi : msg.get_id = 5) (hcon : CoAP_type msg.buf = CoAPType.CON) :
    ∃ mem1 s1,
      s.send CoAP_type (some p) mem msg time = some (mem1, s1, ProtocolError.NO_ERROR) ∧
      s1.process_sweeps mem1 sweeps = (mem1, s1) ∧
      (s1.process_sweeps mem1 sweeps).2.from_id (s1.process_sweeps mem1 sweeps).1 5
        = some (some p) ∧
      ∃ e, (s1.process_sweeps mem1 sweeps).1.read p = some e ∧ e.transmit_count = 0 := by
  obtain ⟨mem2, s2, nxt, hs, _, hl2, hp2, _, _⟩ :=
    send_confirmable CoAP_type mem s l msg p time hl hfresh hid hcon
  rw [hi] at hl2 hp2
  have hf := set_data_fields (CoAPMessage.init 5) msg.buf msg.length
  refine ⟨mem2, s2, hs, process_sweeps_id sweeps mem2 s2, ?_, ?_⟩
  · rw [process_sweeps_id]
    exact head_lookup mem2 s2 _ p 5 _ hl2 hp2 hf.2.1
  · rw [process_sweeps_id]
    exact ⟨_, hp2, hf.2.2.1⟩

/-- Witness of C3 on the code: ID 5 sent to the empty store, then five sweeps,
each later than the backoff of the retransmission it should trigger. -/
theorem process_sweeps_leave_entry_witness :
    ∃ mem1 s1,
      CoAPMessageStore.init.send sample_type (some 0) Memory.empty msg5 0
        = some (mem1, s1, ProtocolError.NO_ERROR) ∧
      (s1.process_sweeps mem1 [3000, 9000, 21000, 45000, 93000]).2.from_id
        (s1.process_sweeps mem1 [3000, 9000, 21000, 45000, 93000]).1 5 = some (some 0) ∧
      ∃ e, (s1.process_sweeps mem1 [3000, 9000, 21000, 45000, 93000]).1.read 0 = some e ∧
        e.transmit_count = 0 := by
  obtain ⟨mem1, s1, h1, _, h3, h4⟩ :=
    process_sweeps_leave_entry sample_type Memory.empty CoAPMessageStore.init [] msg5 0 0
      [3000, 9000, 21000, 45000, 93000] rfl rfl rfl rfl rfl
  exact ⟨mem1, s1, h1, h3, h4⟩

/-- Claim C11 on the code: for a confirmable message with an assigned ID whose
length exceeds 1500, with the allocation succeeding at a free address `p`,
`CoAPMessage::create` still returns the entity `p`, `CoAPMessageStore::send`
returns `NO_ERROR`, and afterwards `from_id` of the ID returns `p`, an entry
without payload (`data_len = 0`). -/
theorem store_send_oversized_tracked (CoAP_type : List Nat → CoAPType) (mem : Memory)
    (s : CoAPMessageStore) (l : List Nat) (msg : Message) (p time : Nat)
    (hl : s.linked mem l) (hfresh : mem.read p = none) (hid : msg.has_id = true)
    (hcon : CoAP_type msg.buf = CoAPType.CON) (hlen : 1500 < msg.length) :
    (CoAPMessage.create mem (some p) msg).2 = some p ∧
    ∃ mem1 s1,
      s.send CoAP_type (some p) mem msg time = some (mem1, s1, ProtocolError.NO_ERROR) ∧
      s1.from_id mem1 msg.get_id = some (some p) ∧
      ∃ e, mem1.read p = some e ∧ e.get_id = msg.get_id ∧ e.get_data_length = 0 := by
  refine ⟨rfl, ?_⟩
  obtain ⟨mem2, s2, nxt, hs, _, hl2, hp2, _, _⟩ :=
    send_confirmable CoAP_type mem s l msg p time hl hfresh hid hcon
  have hf := set_data_fields (CoAPMessage.init msg.get_id) msg.buf msg.length
  have heid : (((CoAPMessage.init msg.get_id).set_data msg.buf msg.length).1.set_next nxt).id
      = msg.get_id := by
    show ((CoAPMessage.init msg.get_id).set_data msg.buf msg.length).1.id = msg.get_id
    rw [hf.2.1]
    exact Nat.mod_eq_of_lt (get_id_lt msg)
  refine ⟨mem2, s2, hs, head_lookup mem2 s2 _ p _ _ hl2 hp2 heid, _, hp2, heid, ?_⟩
  show ((CoAPMessage.init msg.get_id).set_data msg.buf msg.length).1.data_len = 0
  unfold CoAPMessage.set_data
  rw [if_pos hlen]
  rfl

/-- Witness of C11 on the code: a confirmable packet of 1501 bytes with ID 5
sent to the empty store. -/
theorem store_send_oversized_tracked_witness :
    1500 < msg_oversized.length ∧
    ∃ mem1 s1,
      CoAPMessageStore.init.send sample_type (some 0) Memory.empty msg_oversized 0
        = some (mem1, s1, ProtocolError.NO_ERROR) ∧
      s1.from_id mem1 5 = some (some 0) := by
  obtain ⟨_, mem1, s1, h1, h2, _⟩ :=
    store_send_oversized_tracked sample_type Memory.empty CoAPMessageStore.init []
      msg_oversized 0 0 rfl rfl rfl rfl (by decide)
  exact ⟨by decide, mem1, s1, h1, h2⟩

/-- Claim C12: for a message with an assigned ID whose wire type is not
confirmable, `CoAPMessageStore::send` returns `NO_ERROR` and leaves memory and
store as they were, whatever the allocator would have returned; so `from_id`
of every id, the message's included, returns what it returned before, and
nothing if it returned nothing. -/
theorem store_send_non_confirmable (CoAP_type : List Nat → CoAPType) (memory : Option Nat)
    (mem : Memory) (s : CoAPMessageStore) (msg : Message) (time : Nat)
    (hid : msg.has_id = true) (hcon : CoAP_type msg.buf ≠ CoAPType.CON) :
    s.send CoAP_type memory mem msg time = some (mem, s, ProtocolError.NO_ERROR) ∧
    ∀ mem1 s1 e, s.send CoAP_type memory mem msg time = some (mem1, s1, e) →
      (∀ j, s1.from_id mem1 j = s.from_id mem j) ∧
      (s.from_id mem msg.get_id = some none → s1.from_id mem1 msg.get_id = some none) := by
  have h : s.send CoAP_type memory mem msg time = some (mem, s, ProtocolError.NO_ERROR) := by
    simp [CoAPMessageStore.send, hid, CoAPMessageStore.is_confirmable, hcon]
  refine ⟨h, ?_⟩
  intro mem1 s1 e he
  rw [h] at he
  simp only [Option.some.injEq, Prod.mk.injEq] at he
  obtain ⟨rfl, rfl, _⟩ := he
  exact ⟨fun _ => rfl, fun h0 => h0⟩

/-- Witness of C12: a non-confirmable packet with ID 9 sent to the empty store. -/
theorem store_send_non_confirmable_witness :
    (msg_non9.has_id = true ∧ sample_type msg_non9.buf ≠ CoAPType.CON) ∧
    CoAPMessageStore.init.send sample_type (some 0) Memory.empty msg_non9 0
      = some (Memory.empty, CoAPMessageStore.init, ProtocolError.NO_ERROR) :=
  ⟨by decide,
    (store_send_non_confirmable sample_type (some 0) Memory.empty CoAPMessageStore.init
      msg_non9 0 (by decide) (by decide)).1⟩

/-- Claim C16: on a consistent store `l`, `remove(id)` returns a result; if no
linked entry has the id it returns `nullptr` and leaves memory and store as they
were; if `a` is the first linked entry with the id it returns `a`, the `next`
link of `a` is null afterwards, the list is `l` without `a`, in the original
order, and no object changes except in its `next` link. -/
theorem store_remove_by_id (mem : Memory) (s : CoAPMessageStore) (id : Nat) (l : List Nat)
    (hl : s.linked mem l) :
    ∃ mem1 s1 r, s.remove mem id = some (mem1, s1, r) ∧
      ((∀ a ∈ l, mem.hit id a = false) → r = none ∧ mem1 = mem ∧ s1 = s) ∧
      (∀ l1 a l2, l = l1 ++ a :: l2 → (∀ b ∈ l1, mem.hit id b = false) → mem.hit id a = true →
        r = some a ∧ (∃ m, mem1.read a = some m ∧ m.get_next = none) ∧
        s1.linked mem1 (l1 ++ l2) ∧ mem.same_but_links mem1) := by
  obtain ⟨mem1, s1, hr, hl1, hs, _, hrem, hnone⟩ := remove_spec mem s id l hl
  refine ⟨mem1, s1, _, hr, ?_, ?_⟩
  · intro hm
    have e := (find_miss _ _ hm).1
    exact ⟨e, hnone e⟩
  · intro l1 a l2 hl hm ha
    obtain ⟨e1, e2⟩ := find_hit _ _ _ _ hm ha
    rw [← hl] at e1 e2
    obtain ⟨m, _, hm1⟩ := hrem a e1
    rw [e2] at hl1
    exact ⟨e1, ⟨m.removed, hm1, rfl⟩, hl1, hs⟩

/-- Witness of C16: the store holding the entries with ids 7 (address 0) and 5
(address 1, the head); `remove(7)` unlinks address 0. -/
theorem store_remove_by_id_witness :
    ∃ mem1 s1 r,
      CoAPMessageStore.remove
        ((Memory.empty.write 0 (CoAPMessage.init 7)).write 1
          ((CoAPMessage.init 5).set_next (some 0))) { head := some 1 } 7
        = some (mem1, s1, r) ∧
      r = some 0 ∧ s1.linked mem1 ([1] ++ []) := by
  obtain ⟨mem1, s1, r, h1, _, h3⟩ :=
    store_remove_by_id
      ((Memory.empty.write 0 (CoAPMessage.init 7)).write 1
        ((CoAPMessage.init 5).set_next (some 0))) { head := some 1 } 7 [1, 0] ⟨rfl, rfl, rfl⟩
  obtain ⟨h4, _, h5, _⟩ := h3 [1] 0 [] rfl (by decide) (by decide)
  exact ⟨mem1, s1, r, h1, h4, h5⟩

/-- Claim C19: for every `transmit_count` `n` in `0..4` and every value `r` of
`rand()`, the jitter term is 0 and `transmit_timeout` is exactly `2000 * 2^n`;
so `prepare_retransmit now` on one message with two random values gives the
same message, with deadline `(now + 2000 * 2^n) mod 2^32`, and the successive
intervals are 2000, 4000, 8000, 16000, 32000. -/
theorem transmit_timeout_without_jitter (n r : Nat) (hn : n ≤ 4) :
    ((((CoAPMessage.ACK_TIMEOUT <<< n) % 2 ^ 32 * r) % 2 ^ 32) % 256) >>> 9 = 0 ∧
    CoAPMessage.transmit_timeout n r = 2000 * 2 ^ n ∧
    (∀ (m : CoAPMessage) (now r2 : Nat), m.transmit_count = n →
      (m.prepare_retransmit now r).1 = (m.prepare_retransmit now r2).1 ∧
      (m.prepare_retransmit now r).1.timeout = (now + 2000 * 2 ^ n) % 2 ^ 32) ∧
    [CoAPMessage.transmit_timeout 0 r, CoAPMessage.transmit_timeout 1 r,
      CoAPMessage.transmit_timeout 2 r, CoAPMessage.transmit_timeout 3 r,
      CoAPMessage.transmit_timeout 4 r] = [2000, 4000, 8000, 16000, 32000] := by
  refine ⟨jitter_zero _, transmit_timeout_eq n r hn, ?_, ?_⟩
  · intro m now r2 hm
    simp only [CoAPMessage.prepare_retransmit, hm, transmit_timeout_eq n r hn,
      transmit_timeout_eq n r2 hn]
    exact ⟨trivial, trivial⟩
  · rw [transmit_timeout_eq 0 r (by decide), transmit_timeout_eq 1 r (by decide),
      transmit_timeout_eq 2 r (by decide), transmit_timeout_eq 3 r (by decide),
      transmit_timeout_eq 4 r (by decide)]
    rfl

/-- Witness of C19: the third retransmission with `rand() = 987654321`. -/
theorem transmit_timeout_without_jitter_witness :
    3 ≤ 4 ∧ CoAPMessage.transmit_timeout 3 987654321 = 2000 * 2 ^ 3 :=
  ⟨by decide, (transmit_timeout_without_jitter 3 987654321 (by decide)).2.1⟩

/-- Claim C13: on a consistent store `l` with pairwise distinct ids, for an
incoming message of type ACK or RESET of at least 4 bytes whose header bytes
2-3 encode the ID `i`, `CoAPMessageStore::receive` returns `NO_ERROR`; the list
becomes `l` without the entry of id `i`, the other entries in their order and
unchanged up to `next` links; a removed entry is destroyed and `from_id(i)`
returns nothing; if no entry has id `i`, memory and store are as before; and
receiving the message again (as it arrived, or with the decoded ID) leaves
memory and store as after the first time. A confirmable send with ID 7
followed by an ACK carrying ID 7 leaves `from_id(7)` empty. -/
theorem store_receive_ack (CoAP_type : List Nat → CoAPType) (mem : Memory)
    (s : CoAPMessageStore) (l : List Nat) (msg : Message) (i : Nat)
    (hl : s.linked mem l) (hu : unique_ids mem l) (hlen : 4 ≤ msg.length)
    (ht : msg.get_type CoAP_type = CoAPType.ACK ∨ msg.get_type CoAP_type = CoAPType.RESET)
    (hb : header_id msg.buf = i) (hi : i < 65536) :
    (∃ mem1 s1 msg1,
      s.receive CoAP_type mem msg = some (mem1, s1, msg1, ProtocolError.NO_ERROR) ∧
      s1.linked mem1 (l.filter (fun a => !mem.hit i a)) ∧
      (∀ b ∈ l, mem.hit i b = false →
        (mem1.read b).map CoAPMessage.removed = (mem.read b).map CoAPMessage.removed) ∧
      (∀ a ∈ l, mem.hit i a = true → mem1.read a = none) ∧
      s1.from_id mem1 i = some none ∧
      ((∀ a ∈ l, mem.hit i a = false) → mem1 = mem ∧ s1 = s) ∧
      s1.receive CoAP_type mem1 msg = some (mem1, s1, msg1, ProtocolError.NO_ERROR) ∧
      s1.receive CoAP_type mem1 msg1 = some (mem1, s1, msg1, ProtocolError.NO_ERROR)) ∧
    (do
      let t ← CoAPMessageStore.init.send sample_type (some 0) Memory.empty msg7 0
      let r ← t.2.1.receive sample_type t.1 ack7
      r.2.1.from_id r.1 7) = some none := by
  refine ⟨?_, by decide⟩
  have hd : msg.decode_id.1 = msg.set_id i := by
    rw [decode_id_long msg hlen]
    show msg.set_id (CoAP_message_id msg.buf) = msg.set_id i
    have : CoAP_message_id msg.buf = i := by
      unfold CoAP_message_id
      unfold header_id at hb
      rw [hb]
      exact Nat.mod_eq_of_lt hi
    rw [this]
  have hg : msg.decode_id.1.get_id = i := by
    rw [hd, get_id_set_id]
    exact Nat.mod_eq_of_lt hi
  obtain ⟨mem1, s1, hc, hl1, hsame, _, hgone, hnone, _⟩ := clear_message_spec mem s i l hl
  have hr := receive_ack CoAP_type mem s msg ht mem1 s1 (by rw [hg]; exact hc)
  have hnd := Seg_nodup mem l _ hl
  -- no entry of the new list has id `i`
  have hmiss : ∀ b ∈ l.eraseP (mem.hit i), mem1.hit i b = false := by
    intro b hb1
    rw [Memory.hit_of_removed_eq mem mem1 i b (hsame b hb1)]
    rw [eraseP_eq_filter mem l i hu] at hb1
    simpa using (List.mem_filter.1 hb1).2
  -- a second clear_message changes nothing
  obtain ⟨mem2, s2, hc2, _, _, _, _, hnone2, _⟩ :=
    clear_message_spec mem1 s1 i _ hl1
  obtain ⟨e1, e2⟩ := hnone2 (find_miss _ _ hmiss).1
  subst e1
  subst e2
  -- the decoded message decodes to itself
  have ht1 : (msg.set_id i).get_type CoAP_type = CoAPType.ACK ∨
      (msg.set_id i).get_type CoAP_type = CoAPType.RESET := ht
  have hd1 : (msg.set_id i).decode_id.1 = msg.set_id i := by
    rw [decode_id_long (msg.set_id i) hlen]
    show (msg.set_id i).set_id (CoAP_message_id msg.buf) = msg.set_id i
    have : CoAP_message_id msg.buf = i := by
      unfold CoAP_message_id
      unfold header_id at hb
      rw [hb]
      exact Nat.mod_eq_of_lt hi
    rw [this]
    rfl
  have hg1 : (msg.set_id i).decode_id.1.get_id = i := by
    rw [hd1, get_id_set_id]
    exact Nat.mod_eq_of_lt hi
  refine ⟨mem2, s2, msg.set_id i, ?_, ?_, ?_, ?_, ?_, ?_, ?_, ?_⟩
  · rw [← hd]; exact hr
  · rw [← eraseP_eq_filter mem l i hu]; exact hl1
  · intro b hb1 hb2
    apply hsame b
    rw [eraseP_eq_filter mem l i hu]
    exact List.mem_filter.2 ⟨hb1, by simp [hb2]⟩
  · intro a ha1 ha2
    rcases split_first (mem.hit i) l with hm | ⟨l1, x, l2, hl2, h1, hx⟩
    · rw [hm a ha1] at ha2
      exact absurd ha2 (by simp)
    · subst hl2
      obtain ⟨_, h2⟩ := unique_no_other mem l1 l2 x i hu hx
      have hax : a = x := by
        rcases List.mem_append.1 ha1 with h3 | h3
        · rw [h1 a h3] at ha2; exact absurd ha2 (by simp)
        · rcases List.mem_cons.1 h3 with h4 | h4
          · exact h4
          · rw [h2 a h4] at ha2; exact absurd ha2 (by simp)
      rw [hax]
      exact hgone x (find_hit _ _ _ _ h1 hx).1
  · rw [from_id_spec mem2 s2 i _ hl1]
    rw [(find_miss _ _ hmiss).1]
  · intro hm
    exact hnone (find_miss _ _ hm).1
  · rw [← hd]
    exact receive_ack CoAP_type mem2 s2 msg ht mem2 s2 (by rw [hg]; exact hc2)
  · have := receive_ack CoAP_type mem2 s2 (msg.set_id i) ht1 mem2 s2 (by rw [hg1]; exact hc2)
    rw [hd1] at this
    exact this

/-- Witness of C13: the store holding ID 7 at address 0 receives the
acknowledgement of ID 7. -/
theorem store_receive_ack_witness :
    ∃ mem1 s1 msg1,
      CoAPMessageStore.receive sample_type (Memory.empty.write 0 (CoAPMessage.init 7))
        { head := some 0 } ack7 = some (mem1, s1, msg1, ProtocolError.NO_ERROR) ∧
      s1.from_id mem1 7 = some none := by
  obtain ⟨⟨mem1, s1, msg1, h1, _, _, _, h5, _⟩, _⟩ :=
    store_receive_ack sample_type (Memory.empty.write 0 (CoAPMessage.init 7))
      { head := some 0 } [0] ack7 7 ⟨rfl, rfl⟩ (unique_ids_singleton _ 0) (by decide)
      (by decide) (by decide) (by decide)
  exact ⟨mem1, s1, msg1, h1, h5⟩

/-- Claim C20: on a consistent store `l`, for an incoming message of type ACK or
RESET of 1, 2 or 3 bytes, `decode_id` returns false and leaves the message as
it is, and `CoAPMessageStore::receive` returns `NO_ERROR` after removing and
destroying the first entry whose id is the message's `id` field truncated to
16 bits, which is `0xFFFF` for `id = -1`; the other entries stay linked in
their order, unchanged up to `next` links. -/
theorem store_receive_short_ack (CoAP_type : List Nat → CoAPType) (mem : Memory)
    (s : CoAPMessageStore) (l : List Nat) (msg : Message)
    (hl : s.linked mem l) (h1 : 1 ≤ msg.length) (h3 : msg.length ≤ 3)
    (ht : msg.get_type CoAP_type = CoAPType.ACK ∨ msg.get_type CoAP_type = CoAPType.RESET) :
    msg.decode_id = (msg, false) ∧
    (msg.id = -1 → msg.get_id = 0xFFFF) ∧
    ∃ mem1 s1,
      s.receive CoAP_type mem msg = some (mem1, s1, msg, ProtocolError.NO_ERROR) ∧
      s1.linked mem1 (l.eraseP (mem.hit msg.get_id)) ∧
      (∀ a, l.find? (mem.hit msg.get_id) = some a → mem1.read a = none) ∧
      (∀ b ∈ l.eraseP (mem.hit msg.get_id),
        (mem1.read b).map CoAPMessage.removed = (mem.read b).map CoAPMessage.removed) ∧
      (∀ b, b ∉ l → mem1.read b = mem.read b) := by
  have hd := decode_id_short msg (by omega)
  refine ⟨hd, ?_, ?_⟩
  · intro hid
    simp [Message.get_id, hid]
  · obtain ⟨mem1, s1, hc, hl1, hsame, hfr, hgone, _, _⟩ :=
      clear_message_spec mem s msg.get_id l hl
    have hr := receive_ack CoAP_type mem s msg ht mem1 s1 (by rw [hd]; exact hc)
    rw [hd] at hr
    exact ⟨mem1, s1, hr, hl1, hgone, hsame, hfr⟩

/-- Witness of C20: a three-byte acknowledgement without ID received by a store
that holds an entry with id `0xFFFF`. -/
theorem store_receive_short_ack_witness :
    (1 ≤ ack_short.length ∧ ack_short.length ≤ 3) ∧
    ∃ mem1 s1,
      CoAPMessageStore.receive sample_type (Memory.empty.write 0 (CoAPMessage.init 0xFFFF))
        { head := some 0 } ack_short = some (mem1, s1, ack_short, ProtocolError.NO_ERROR) ∧
      s1.linked mem1
        ([0].eraseP ((Memory.empty.write 0 (CoAPMessage.init 0xFFFF)).hit ack_short.get_id)) := by
  obtain ⟨_, _, mem1, s1, h1, h2, _⟩ :=
    store_receive_short_ack sample_type (Memory.empty.write 0 (CoAPMessage.init 0xFFFF))
      { head := some 0 } [0] ack_short ⟨rfl, rfl⟩ (by decide) (by decide) (by decide)
  exact ⟨by decide, mem1, s1, h1, h2⟩

/-- Claim C17: on a consistent store, with any allocation result that is null or
a free address, `CoAPReliableChannel::send` first registers the message with
the store, and registration returns a result `e`. If `e` is an error the
channel returns `e`, and transport state and message are untouched: the
transport's `send` is not applied. Otherwise the transport's `send` is applied
once, to the message and the transport state, and its result is returned. -/
theorem reliable_send_short_circuit {σ : Type} (CoAP_type : List Nat → CoAPType)
    (T_send : Message → σ → ProtocolError × Message × σ) (memory : Option Nat) (millis : Nat)
    (mem : Memory) (c : CoAPReliableChannel σ) (l : List Nat) (msg : Message)
    (hl : c.store.linked mem l) (hfresh : ∀ p, memory = some p → mem.read p = none) :
    ∃ mem1 s1 e, c.store.send CoAP_type memory mem msg millis = some (mem1, s1, e) ∧
      (e ≠ ProtocolError.NO_ERROR →
        c.send CoAP_type T_send memory millis mem msg
          = some (mem1, { store := s1, base := c.base }, msg, e)) ∧
      (e = ProtocolError.NO_ERROR →
        c.send CoAP_type T_send memory millis mem msg
          = some (mem1, { store := s1, base := (T_send msg c.base).2.2 },
              (T_send msg c.base).2.1, (T_send msg c.base).1)) := by
  obtain ⟨mem1, s1, e, hs⟩ := store_send_total CoAP_type memory mem c.store l msg millis hl hfresh
  refine ⟨mem1, s1, e, hs, ?_, ?_⟩
  · intro he
    simp [CoAPReliableChannel.send, hs, he]
  · intro he
    simp [CoAPReliableChannel.send, hs, he]

/-- Witness of C17: over a transport that counts its `send` calls, a message
without ID leaves the count at 0 and returns `MISSING_MESSAGE_ID`. -/
theorem reliable_send_short_circuit_witness :
    CoAPReliableChannel.send sample_type T_send_count (some 0) 0 Memory.empty
        { store := CoAPMessageStore.init, base := 0 } (Message.create [0x40, 0x01, 0, 5] 4 4)
      = some (Memory.empty, { store := CoAPMessageStore.init, base := 0 },
          Message.create [0x40, 0x01, 0, 5] 4 4, ProtocolError.MISSING_MESSAGE_ID) := by
  obtain ⟨mem1, s1, e, h1, h2, _⟩ :=
    reliable_send_short_circuit sample_type T_send_count (some 0) 0 Memory.empty
      { store := CoAPMessageStore.init, base := (0 : Nat) } []
      (Message.create [0x40, 0x01, 0, 5] 4 4) rfl (fun _ _ => rfl)
  have h0 : CoAPMessageStore.init.send sample_type (some 0) Memory.empty
      (Message.create [0x40, 0x01, 0, 5] 4 4) 0
      = some (Memory.empty, CoAPMessageStore.init, ProtocolError.MISSING_MESSAGE_ID) := rfl
  rw [h0] at h1
  simp only [Option.some.injEq, Prod.mk.injEq] at h1
  obtain ⟨rfl, rfl, rfl⟩ := h1
  exact h2 (by decide)

/-- Claim C18: on every consistent store `l`, entries sharing ids or not,
`clear()` ends and leaves the store empty, with every entry of `l` destroyed
and `from_id` returning nothing for every id; while the list is not empty,
`remove` of the head's id returns the head itself and leaves the rest of the
list; and `CoAPReliableChannel::establish` leaves the store empty and returns
the result of the transport's `establish`, whatever it is. -/
theorem store_clear_empties {σ : Type} (T_establish : σ → ProtocolError × σ) (base : σ)
    (mem : Memory) (s : CoAPMessageStore) (l : List Nat) (hl : s.linked mem l) :
    ∃ mem1 s1, s.clear mem = some (mem1, s1) ∧ s1.head = none ∧
      (∀ id, s1.from_id mem1 id = some none) ∧
      (∀ a ∈ l, mem1.read a = none) ∧
      (∀ a l1 m, l = a :: l1 → mem.read a = some m →
        ∃ mem2 s2, s.remove mem m.get_id = some (mem2, s2, some a) ∧ s2.linked mem2 l1) ∧
      CoAPReliableChannel.establish T_establish mem { store := s, base := base }
        = some (mem1, { store := s1, base := (T_establish base).2 }, (T_establish base).1) := by
  obtain ⟨mem1, hc, hz, _, _⟩ := clear_spec mem s l hl
  refine ⟨mem1, { head := none }, hc, rfl, fun id => from_id_empty mem1 id, hz, ?_, ?_⟩
  · intro a l1 m hl1 hm
    subst hl1
    have hhit : mem.hit m.get_id a = true := by
      simp [Memory.hit, hm, CoAPMessage.matches, CoAPMessage.get_id]
    obtain ⟨mem2, s2, hr, hl2, _⟩ := remove_spec mem s m.get_id (a :: l1) hl
    have hfind : (a :: l1).find? (mem.hit m.get_id) = some a := by
      simp [List.find?_cons, hhit]
    have herase : (a :: l1).eraseP (mem.hit m.get_id) = l1 := by
      simp [List.eraseP_cons, hhit]
    rw [hfind] at hr
    rw [herase] at hl2
    exact ⟨mem2, s2, hr, hl2⟩
  · simp [CoAPReliableChannel.establish, hc]

/-- Witness of C18: a store of two entries that share the id 5, over a
transport whose `establish` fails. -/
theorem store_clear_empties_witness :
    ∃ mem1 s1,
      CoAPMessageStore.clear
        ((Memory.empty.write 0 (CoAPMessage.init 5)).write 1
          ((CoAPMessage.init 5).set_next (some 0))) { head := some 1 } = some (mem1, s1) ∧
      s1.head = none ∧
      CoAPReliableChannel.establish T_establish_fail
        ((Memory.empty.write 0 (CoAPMessage.init 5)).write 1
          ((CoAPMessage.init 5).set_next (some 0))) { store := { head := some 1 }, base := () }
        = some (mem1, { store := s1, base := () }, ProtocolError.IO_ERROR) := by
  obtain ⟨mem1, s1, h1, h2, _, _, _, h6⟩ :=
    store_clear_empties T_establish_fail ()
      ((Memory.empty.write 0 (CoAPMessage.init 5)).write 1
        ((CoAPMessage.init 5).set_next (some 0))) { head := some 1 } [1, 0] ⟨rfl, rfl, rfl⟩
  exact ⟨mem1, s1, h1, h2, h6⟩

/-- Counterexample to C15 as stated: in the store holding the list `[1, 0]`, the
entry at address 0 is linked into this store, and `add` of it returns
`NO_ERROR` and moves it to the head: the list is `[0, 1]` afterwards. -/
theorem store_add_linked_counterexample :
    CoAPMessageStore.linked mem57 { head := some 1 } [1, 0] ∧
    ∃ mem2,
      CoAPMessageStore.add mem57 { head := some 1 } 0
        = some (mem2, { head := some 0 }, ProtocolError.NO_ERROR) ∧
      CoAPMessageStore.linked mem2 { head := some 0 } [0, 1] :=
  ⟨⟨rfl, rfl, rfl⟩, _, rfl, ⟨rfl, rfl, rfl⟩⟩

/-- Claim C15, amended: on a consistent store `l`, `add` of an entry that is not
linked in this store and whose `next` link is not null returns
`INVALID_STATE`, and leaves memory and store as they were if no entry of `l`
has the id of the entry; `add` of an entry that is linked in this store as the
first entry of its id returns `NO_ERROR` and moves it to the head, the other
entries keeping their order. -/
theorem store_add_linked (mem : Memory) (s : CoAPMessageStore) (l : List Nat) (p : Nat)
    (m0 : CoAPMessage) (hl : s.linked mem l) (hm0 : mem.read p = some m0) :
    (p ∉ l → m0.get_next ≠ none →
      ∃ mem1 s1, s.add mem p = some (mem1, s1, ProtocolError.INVALID_STATE) ∧
        ((∀ a ∈ l, mem.hit m0.get_id a = false) → mem1 = mem ∧ s1 = s)) ∧
    (l.find? (mem.hit m0.get_id) = some p →
      ∃ mem2 s2, s.add mem p = some (mem2, s2, ProtocolError.NO_ERROR) ∧
        s2.linked mem2 (p :: l.erase p) ∧ mem.same_but_links mem2) := by
  constructor
  · intro hp hn
    obtain ⟨mem1, s1, ha, _, _, _, _, hnone⟩ := add_invalid mem s l p m0 hl hp hm0 hn
    exact ⟨mem1, s1, ha, hnone⟩
  · intro hf
    obtain ⟨mem2, s2, ha, hl2, hs, _⟩ := add_relink mem s l p m0 hl hm0 hf
    rw [eraseP_first_eq_erase _ l p (Seg_nodup mem l _ hl) hf] at hl2
    exact ⟨mem2, s2, ha, hl2, hs⟩

/-- Witness of C15, amended: the entry at address 2 is linked to address 0 from
outside the store, and no entry of the store has its id 9. -/
theorem store_add_linked_witness :
    (2 ∉ [1, 0] ∧ ((CoAPMessage.init 9).set_next (some 0)).get_next ≠ none) ∧
    ∃ mem1 s1,
      CoAPMessageStore.add mem579 { head := some 1 } 2
        = some (mem1, s1, ProtocolError.INVALID_STATE) ∧
      ((∀ a ∈ [1, 0], mem579.hit ((CoAPMessage.init 9).set_next (some 0)).get_id a = false) →
        mem1 = mem579 ∧ s1 = { head := some 1 }) :=
  ⟨by decide,
    (store_add_linked mem579 { head := some 1 } [1, 0] 2 ((CoAPMessage.init 9).set_next (some 0))
      ⟨rfl, rfl, rfl⟩ rfl).1 (by decide) (by decide)⟩

end particle.protocol
